import Mathlib

/-!
# Model compatibility checker (`torch/csrc/jit/mobile/model_compatibility.cpp`)

A shallow embedding of the bytecode extractors and of `is_compatible`,
followed by the properties established about them.

Modelling conventions.

* `std::unordered_set<std::string>` and `std::unordered_map<std::string, OperatorInfo>`
  are lists: the list is the container's iteration sequence (which the C++ standard
  leaves unspecified, so every statement below is for an arbitrary order). `find`
  returns the entry stored under a key.
* `uint64_t` bytecode versions are `Nat`; `int64_t` / `int` payloads are `Int`, with
  the wrap-around of a narrowing cast written out.
* A C++ exception (`TORCH_CHECK`, `.at()`, a failed `toTupleRef` / `toStringRef` /
  `toInt` assertion) is `Except.error`; the unchecked `elements()[i]` is modelled as
  failing as well when `i` is out of range.
* `TORCH_WARN` appends to a list of warnings returned next to the value.
-/

namespace torch.jit

/-! ## Data model -/

deriving instance DecidableEq for Except

/-- Verdict of the check (`ModelCompatibilityStatus`). -/
inductive ModelCompatibilityStatus where
  | OK
  | ERROR
  deriving DecidableEq, Repr

/-- Record `OperatorInfo`: the number of schema arguments, a `c10::optional<int>`. -/
structure OperatorInfo where
  num_schema_args : Option Int
  deriving DecidableEq, Repr

/-- Record `RuntimeCompatibilityInfo`. -/
structure RuntimeCompatibilityInfo where
  bytecode_version : Nat
  operator_info : List (String × OperatorInfo)
  supported_types : List String
  deriving DecidableEq, Repr

/-- Record `ModelCompatibilityInfo`. -/
structure ModelCompatibilityInfo where
  bytecode_version : Nat
  operator_info : List (String × OperatorInfo)
  type_table : List String
  deriving DecidableEq, Repr

/-- Record `ModelCompatCheckResult`. -/
structure ModelCompatCheckResult where
  status : ModelCompatibilityStatus
  errors : List String
  deriving DecidableEq, Repr

/-- Lookup `unordered_map::find` / `at`: the value stored under key `k`, if any. -/
def unordered_map_find (m : List (String × OperatorInfo)) (k : String) : Option OperatorInfo :=
  match m with
  | [] => none
  | (k', v) :: rest => if k' = k then some v else unordered_map_find rest k

/-- Insertion `unordered_map::emplace`: inserts only when the key is not yet present. -/
def unordered_map_emplace (m : List (String × OperatorInfo)) (k : String) (v : OperatorInfo) :
    List (String × OperatorInfo) :=
  match unordered_map_find m k with
  | some _ => m
  | none => m ++ [(k, v)]

/-- Insertion `unordered_set::insert` of one string. -/
def unordered_set_insert (s : List String) (x : String) : List String :=
  if x ∈ s then s else s ++ [x]

/-! ## `is_compatible` -/

/-- Message built at lines 292-295. -/
def version_error (model_version runtime_version : Nat) : String :=
  "model bytecode version " ++ toString model_version ++
    "is greater than the runtimes " ++ toString runtime_version

/-- Message built at lines 304-307. -/
def type_error (type_name : String) : String :=
  "Primitive type: '" ++ type_name ++ "' is not supported in current runtime"

/-- Message built at lines 322-324. -/
def not_found_error (op_name : String) : String :=
  "Operator '" ++ op_name ++ "' missing from runtime (not found)"

/-- Message built at lines 332-335. -/
def missing_schema_error (op_name : String) : String :=
  "Operator '" ++ op_name ++ "' missing from runtime (missing schema)"

/-- Message built at lines 345-350. -/
def schema_error (op_name : String) (model_args runtime_args : Int) : String :=
  "Operator schema for'" ++ op_name ++ "' has " ++ toString model_args ++
    " args in model but only " ++ toString runtime_args ++ " in the runtime"

/-- Lines 290-296: the bytecode version check. -/
def check_version (runtime_info : RuntimeCompatibilityInfo) (model_info : ModelCompatibilityInfo)
    (result : ModelCompatCheckResult) : ModelCompatCheckResult :=
  if model_info.bytecode_version > runtime_info.bytecode_version then
    { status := ModelCompatibilityStatus.ERROR,
      errors := result.errors ++
        [version_error model_info.bytecode_version runtime_info.bytecode_version] }
  else result

/-- Lines 302-308: body of the loop over the model's type table. -/
def check_type (supported_type : List String) (result : ModelCompatCheckResult)
    (type_name : String) : ModelCompatCheckResult :=
  if type_name ∉ supported_type then
    { status := ModelCompatibilityStatus.ERROR,
      errors := result.errors ++ [type_error type_name] }
  else result

/-- Lines 315-353: body of the loop over the model's operators. The third branch
(lines 342-351) appends its message and leaves `result.status` untouched. -/
def check_operator (runtime_info : RuntimeCompatibilityInfo) (result : ModelCompatCheckResult)
    (op : String × OperatorInfo) : ModelCompatCheckResult :=
  let op_name := op.1
  let model_op_info := op.2
  match unordered_map_find runtime_info.operator_info op_name with
  | none =>
    { status := ModelCompatibilityStatus.ERROR,
      errors := result.errors ++ [not_found_error op_name] }
  | some runtime_op_info =>
    match runtime_op_info.num_schema_args with
    | none =>
      { status := ModelCompatibilityStatus.ERROR,
        errors := result.errors ++ [missing_schema_error op_name] }
    | some runtime_args =>
      match model_op_info.num_schema_args with
      | some model_args =>
        if model_args > runtime_args then
          { status := result.status,
            errors := result.errors ++ [schema_error op_name model_args runtime_args] }
        else result
      | none => result

/-- Function `is_compatible` (lines 284-356). -/
def is_compatible (runtime_info : RuntimeCompatibilityInfo)
    (model_info : ModelCompatibilityInfo) : ModelCompatCheckResult :=
  let result : ModelCompatCheckResult := { status := ModelCompatibilityStatus.OK, errors := [] }
  let result := check_version runtime_info model_info result
  let supported_type := runtime_info.supported_types
  let result := model_info.type_table.foldl (check_type supported_type) result
  let operator_info := model_info.operator_info
  let result := operator_info.foldl (check_operator runtime_info) result
  result

/-- The messages one operator of the model adds to `errors`. -/
def operator_errors (runtime_info : RuntimeCompatibilityInfo) (op : String × OperatorInfo) :
    List String :=
  (check_operator runtime_info { status := ModelCompatibilityStatus.OK, errors := [] } op).errors

/-- The operator is absent from the runtime, or present there without a
schema-arg-count: the two branches that assign `result.status`. -/
def operator_unusable (runtime_info : RuntimeCompatibilityInfo) (op : String × OperatorInfo) :
    Prop :=
  unordered_map_find runtime_info.operator_info op.1 = none ∨
    unordered_map_find runtime_info.operator_info op.1 = some { num_schema_args := none }

instance (runtime_info : RuntimeCompatibilityInfo) (op : String × OperatorInfo) :
    Decidable (operator_unusable runtime_info op) :=
  inferInstanceAs (Decidable (_ ∨ _))

/-! ## Tagged values -/

/-- Tagged value `c10::IValue`, with the tags the extractors inspect: integers
(`int64_t`), strings and tuples; `mkNone` and `mkOther` stand for every other tag. -/
inductive IValue where
  | mkNone
  | mkInt (i : Int)
  | mkString (s : String)
  | mkTuple (elements : List IValue)
  | mkOther (tag : Nat)

/-- Test `IValue::isInt`. -/
def IValue.isInt (v : IValue) : Bool :=
  match v with
  | IValue.mkInt _ => true
  | _ => false

/-- Accessor `IValue::toInt`: asserts the tag. -/
def IValue.toInt (v : IValue) : Except String Int :=
  match v with
  | IValue.mkInt i => Except.ok i
  | _ => Except.error "Expected Int"

/-- Accessor `IValue::toStringRef` (and `toString()->string()`): asserts the tag. -/
def IValue.toStringRef (v : IValue) : Except String String :=
  match v with
  | IValue.mkString s => Except.ok s
  | _ => Except.error "Expected String"

/-- Accessor `IValue::toTupleRef().elements()`: asserts the tag. -/
def IValue.toTupleRef (v : IValue) : Except String (List IValue) :=
  match v with
  | IValue.mkTuple elements => Except.ok elements
  | _ => Except.error "Expected Tuple"

/-- Bounds-checked element access `.at(i)`. -/
def elements_at (xs : List IValue) (i : Nat) : Except String IValue :=
  match xs.get? i with
  | some x => Except.ok x
  | none => Except.error "out_of_range"

/-- Element access `elements()[i]`; out of range is modelled as a failure. -/
def elements_index (xs : List IValue) (i : Nat) : Except String IValue :=
  match xs.get? i with
  | some x => Except.ok x
  | none => Except.error "index out of range"

/-- Values of `int64_t`. -/
def is_int64 (i : Int) : Prop := -(2 ^ 63) ≤ i ∧ i < 2 ^ 63

instance (i : Int) : Decidable (is_int64 i) :=
  inferInstanceAs (Decidable (_ ∧ _))

/-- Cast `static_cast<uint64_t>` of an `int64_t`. -/
def static_cast_uint64 (i : Int) : Nat := (i % 2 ^ 64).toNat

/-- Cast `(int)` of an `int64_t`: wraps to 32 bits, two's complement. -/
def static_cast_int (i : Int) : Int := (i + 2 ^ 31) % 2 ^ 32 - 2 ^ 31

/-! ## Bytecode version -/

/-- Function `_get_model_bytecode_version` on a value sequence (lines 92-103). -/
def _get_model_bytecode_version (bytecode_ivalues : List IValue) : Except String Nat :=
  match bytecode_ivalues with
  | IValue.mkInt model_version :: _ =>
    if model_version > 0 then
      Except.ok (static_cast_uint64 model_version)
    else
      Except.error ("Expected model bytecode version > 0 got " ++ toString model_version)
  | _ => Except.error "Failed to get bytecode version."

/-! ## Operators and info -/

/-- Constant `min_version_with_schema` (line 149). -/
def min_version_with_schema : Nat := 6

/-- Warning text of lines 151-152. -/
def schema_warning : String :=
  "Only models with bytecode version 6 and above contain operator schema information. Please re-export your model to generate it"

/-- Warning text of line 156. -/
def ops_warning : String := "Failed to get model ops and info."

/-- Lines 162-164: descend from a method entry to its list of operator records. -/
def method_operators (method : IValue) : Except String (List IValue) := do
  let method_tuple ← method.toTupleRef
  let method_body ← (← elements_at method_tuple 1).toTupleRef
  let operators_tuple ← elements_index method_body 1
  let operators ← elements_index (← operators_tuple.toTupleRef) 1
  operators.toTupleRef

/-- Lines 166-181: the canonical identifier and the `OperatorInfo` of one record. -/
def read_operator_record (op_tuple : IValue) : Except String (String × OperatorInfo) := do
  let op ← op_tuple.toTupleRef
  let op_name ← (← elements_at op 0).toStringRef
  let op_overload_name ← (← elements_at op 1).toStringRef
  let op_name := if op_overload_name ≠ "" then op_name ++ "." ++ op_overload_name else op_name
  if op.length > 2 then
    let n ← (← elements_at op 2).toInt
    pure (op_name, { num_schema_args := some (static_cast_int n) })
  else
    pure (op_name, { num_schema_args := none })

/-- Lines 165-182: the loop over the operator records of one method. -/
def emplace_operators (operators : List IValue) (result : List (String × OperatorInfo)) :
    Except String (List (String × OperatorInfo)) :=
  match operators with
  | [] => Except.ok result
  | op_tuple :: rest => do
    let record ← read_operator_record op_tuple
    emplace_operators rest (unordered_map_emplace result record.1 record.2)

/-- Lines 160-183: the loop over the method entries. -/
def emplace_methods (methods : List IValue) (result : List (String × OperatorInfo)) :
    Except String (List (String × OperatorInfo)) :=
  match methods with
  | [] => Except.ok result
  | method :: rest => do
    let operators ← method_operators method
    let result ← emplace_operators operators result
    emplace_methods rest result

/-- Function `_get_model_ops_and_info` on a value sequence (lines 147-185); the second
component collects the `TORCH_WARN` messages. -/
def _get_model_ops_and_info (bytecode_ivalues : List IValue) :
    Except String (List (String × OperatorInfo) × List String) := do
  let version ← _get_model_bytecode_version bytecode_ivalues
  let warnings := if version < min_version_with_schema then [schema_warning] else []
  let result : List (String × OperatorInfo) := []
  if bytecode_ivalues.isEmpty then
    pure (result, warnings ++ [ops_warning])
  else
    let result ← emplace_methods (bytecode_ivalues.drop 1) result
    pure (result, warnings)

/-- The operator records of a list of record tuples, in order. -/
def operator_records_of (operators : List IValue) : Except String (List (String × OperatorInfo)) :=
  match operators with
  | [] => Except.ok []
  | op_tuple :: rest => do
    let record ← read_operator_record op_tuple
    let records ← operator_records_of rest
    pure (record :: records)

/-- The operator records of a list of method entries, in traversal order. -/
def method_records_of (methods : List IValue) : Except String (List (String × OperatorInfo)) :=
  match methods with
  | [] => Except.ok []
  | method :: rest => do
    let operators ← method_operators method
    let records ← operator_records_of operators
    let others ← method_records_of rest
    pure (records ++ others)

/-- All operator records of a bytecode sequence (method entries at indices 1..end), in
the order in which `_get_model_ops_and_info` visits them. -/
def operator_records (bytecode_ivalues : List IValue) :
    Except String (List (String × OperatorInfo)) :=
  method_records_of (bytecode_ivalues.drop 1)

/-! ## Type table -/

/-- Range insertion `contained_types.insert(first, last)`. -/
def unordered_set_insert_all (s : List String) (xs : List String) : List String :=
  xs.foldl unordered_set_insert s

/-- Lines 229-233: descend from a method entry to its type table. The slot
`BYTECODE_INDEX_TYPE` is declared in `import_export_constants.h`. -/
def method_type_table (BYTECODE_INDEX_TYPE : Nat) (method : IValue) :
    Except String (List IValue) := do
  let method_tuple ← method.toTupleRef
  let method_body ← (← elements_at method_tuple 1).toTupleRef
  let type_table_tuple ← elements_index method_body BYTECODE_INDEX_TYPE
  let type_table ← elements_index (← type_table_tuple.toTupleRef) 1
  type_table.toTupleRef

/-- Lines 236-249: the loop over one type table. The state is the pair
`(contained_types, parsed_type_names_records)`; `parse` stands for
`at::TypeParser(type_name).parse()` followed by `getContainedTypes()`. -/
def read_type_table (parse : String → Except String (List String))
    (type_table : List IValue) (state : List String × List String) :
    Except String (List String × List String) :=
  match type_table with
  | [] => Except.ok state
  | type_definition :: rest => do
    let type_name ← type_definition.toStringRef
    if type_name ∉ state.2 then
      let type_tokens ← parse type_name
      read_type_table parse rest
        (unordered_set_insert_all state.1 type_tokens, unordered_set_insert state.2 type_name)
    else
      read_type_table parse rest state

/-- Lines 228-250: the loop over the method entries. -/
def read_type_tables (BYTECODE_INDEX_TYPE : Nat) (parse : String → Except String (List String))
    (methods : List IValue) (state : List String × List String) :
    Except String (List String × List String) :=
  match methods with
  | [] => Except.ok state
  | method :: rest => do
    let type_table ← method_type_table BYTECODE_INDEX_TYPE method
    let state ← read_type_table parse type_table state
    read_type_tables BYTECODE_INDEX_TYPE parse rest state

/-- Function `_get_mobile_model_contained_types` on a value sequence (lines 221-253). -/
def _get_mobile_model_contained_types (BYTECODE_INDEX_TYPE : Nat)
    (parse : String → Except String (List String)) (bytecode_ivalues : List IValue) :
    Except String (List String) := do
  let state ← read_type_tables BYTECODE_INDEX_TYPE parse (bytecode_ivalues.drop 1) ([], [])
  pure state.1

/-! ## Classification of error messages -/

/-- A message of the bytecode version check. -/
def is_version_error (s : String) : Prop := "model bytecode version ".data <+: s.data

/-- A message of the type table check. -/
def is_type_error (s : String) : Prop := "Primitive type: '".data <+: s.data

instance (s : String) : Decidable (is_version_error s) :=
  inferInstanceAs (Decidable ("model bytecode version ".data <+: s.data))

instance (s : String) : Decidable (is_type_error s) :=
  inferInstanceAs (Decidable ("Primitive type: '".data <+: s.data))

/-- Text `needle` occurs in `s`. -/
def mentions (s needle : String) : Prop := needle.data <:+: s.data

instance (s needle : String) : Decidable (mentions s needle) :=
  inferInstanceAs (Decidable (needle.data <:+: s.data))

/-! ## Concrete inputs -/

/-- An operator record `[name, overload, schema_arg_count]`. -/
def op_record (name : String) (overload : String) (n : Int) : IValue :=
  IValue.mkTuple [IValue.mkString name, IValue.mkString overload, IValue.mkInt n]

/-- A method entry `[name, body]` whose body holds the five sections, with the
operators section in slot 1 and the type table in slot 3. -/
def method_entry (name : String) (ops : List IValue) (types : List String) : IValue :=
  IValue.mkTuple [IValue.mkString name,
    IValue.mkTuple [
      IValue.mkTuple [IValue.mkString "instructions", IValue.mkTuple []],
      IValue.mkTuple [IValue.mkString "operators", IValue.mkTuple ops],
      IValue.mkTuple [IValue.mkString "constants", IValue.mkTuple []],
      IValue.mkTuple [IValue.mkString "types", IValue.mkTuple (types.map IValue.mkString)],
      IValue.mkTuple [IValue.mkString "register_size", IValue.mkInt 2]]]

/-- Scenario A: runtime with maximal version 6. -/
def scenario_A_runtime : RuntimeCompatibilityInfo :=
  { bytecode_version := 6, operator_info := [], supported_types := [] }

/-- Scenario A: model of version 8. -/
def scenario_A_model : ModelCompatibilityInfo :=
  { bytecode_version := 8, operator_info := [], type_table := [] }

/-- Scenario B: runtime supporting `Tensor` only. -/
def scenario_B_runtime : RuntimeCompatibilityInfo :=
  { bytecode_version := 6, operator_info := [], supported_types := ["Tensor"] }

/-- Scenario B: model using `Tensor` and `int`. -/
def scenario_B_model : ModelCompatibilityInfo :=
  { bytecode_version := 6, operator_info := [], type_table := ["Tensor", "int"] }

/-- Scenario C: runtime whose `foo.bar` takes 2 schema arguments. -/
def scenario_C_runtime : RuntimeCompatibilityInfo :=
  { bytecode_version := 6, operator_info := [("foo.bar", { num_schema_args := some 2 })],
    supported_types := [] }

/-- Scenario C: model whose `foo.bar` takes 3 schema arguments. -/
def scenario_C_model : ModelCompatibilityInfo :=
  { bytecode_version := 6, operator_info := [("foo.bar", { num_schema_args := some 3 })],
    type_table := [] }

/-- Scenario D: runtime whose `foo.bar` takes 5 schema arguments. -/
def scenario_D_runtime : RuntimeCompatibilityInfo :=
  { bytecode_version := 6, operator_info := [("foo.bar", { num_schema_args := some 5 })],
    supported_types := [] }

/-- Scenario D: model whose `foo.bar` takes 2 schema arguments. -/
def scenario_D_model : ModelCompatibilityInfo :=
  { bytecode_version := 6, operator_info := [("foo.bar", { num_schema_args := some 2 })],
    type_table := [] }

/-- Scenario E: runtime without operators. -/
def scenario_E_runtime : RuntimeCompatibilityInfo :=
  { bytecode_version := 6, operator_info := [], supported_types := [] }

/-- Scenario E: model using `baz`. -/
def scenario_E_model : ModelCompatibilityInfo :=
  { bytecode_version := 6, operator_info := [("baz", { num_schema_args := some 1 })],
    type_table := [] }

/-- A runtime of version 7 whose `aten::add.Tensor` takes 2 schema arguments. -/
def add_runtime : RuntimeCompatibilityInfo :=
  { bytecode_version := 7,
    operator_info := [("aten::add.Tensor", { num_schema_args := some 2 })],
    supported_types := ["Tensor"] }

/-- A model of version 7 whose `aten::add.Tensor` takes 3 schema arguments. -/
def add_model : ModelCompatibilityInfo :=
  { bytecode_version := 7,
    operator_info := [("aten::add.Tensor", { num_schema_args := some 3 })],
    type_table := ["Tensor"] }

/-- A runtime that lists `aten::mul` without schema information. -/
def pre_schema_runtime : RuntimeCompatibilityInfo :=
  { bytecode_version := 5, operator_info := [("aten::mul", { num_schema_args := none })],
    supported_types := ["Tensor"] }

/-- A model of version 5 (before schema sizes were recorded) using `aten::mul`. -/
def pre_schema_model : ModelCompatibilityInfo :=
  { bytecode_version := 5, operator_info := [("aten::mul", { num_schema_args := none })],
    type_table := ["Tensor"] }

/-- A runtime of version 7 with schema information for `aten::mul`. -/
def mul_runtime : RuntimeCompatibilityInfo :=
  { bytecode_version := 7,
    operator_info := [("aten::mul", { num_schema_args := some 2 }),
      ("aten::add", { num_schema_args := some 3 })],
    supported_types := ["Tensor", "int"] }

/-- A model of version 6 using `aten::mul`. -/
def mul_model : ModelCompatibilityInfo :=
  { bytecode_version := 6, operator_info := [("aten::mul", { num_schema_args := some 2 })],
    type_table := ["Tensor"] }

/-- A bytecode sequence whose two methods both record `aten::add.Tensor`, first with 2
and then with 3 schema arguments. -/
def duplicate_ops_bytecode : List IValue :=
  [IValue.mkInt 7,
    method_entry "forward" [op_record "aten::add" "Tensor" 2, op_record "aten::mul" "" 2] [],
    method_entry "helper" [op_record "aten::add" "Tensor" 3] []]

/-! ## Further classification of the errors -/

/-- A message of the operator check: all three start with `Operator `. -/
def is_operator_error (s : String) : Prop := "Operator ".data <+: s.data

instance (s : String) : Decidable (is_operator_error s) :=
  inferInstanceAs (Decidable ("Operator ".data <+: s.data))

/-- The model operator is one that the runtime does not have, has without a
schema-arg-count, or has with fewer schema arguments than the model uses. -/
def operator_rejected (runtime_info : RuntimeCompatibilityInfo) (op : String × OperatorInfo) :
    Bool :=
  match unordered_map_find runtime_info.operator_info op.1 with
  | none => true
  | some runtime_op_info =>
    match runtime_op_info.num_schema_args, op.2.num_schema_args with
    | none, _ => true
    | some runtime_args, some model_args => decide (model_args > runtime_args)
    | some _, none => false

/-! ## Shape of a well-formed bytecode sequence -/

/-- The method entry `method` is a tuple `[name, body, ...]` whose body holds, at
position `slot`, a section `[tag, items, ...]` whose second field is the tuple of
`items`. -/
def method_section (slot : Nat) (method : IValue) (items : List IValue) : Prop :=
  ∃ name body rest tag more,
    method = IValue.mkTuple (name :: IValue.mkTuple body :: rest) ∧
      body.get? slot = some (IValue.mkTuple (tag :: IValue.mkTuple items :: more))

/-- An operator record of the data model: `[name, overload_name]`, optionally followed
by a third field `schema_arg_count`. -/
structure OperatorRecord where
  name : String
  overload_name : String
  schema_arg_count : Option Int
  deriving DecidableEq, Repr

/-- The tuple that encodes an operator record. -/
def OperatorRecord.toIValue (r : OperatorRecord) : IValue :=
  match r.schema_arg_count with
  | some n => IValue.mkTuple [IValue.mkString r.name, IValue.mkString r.overload_name,
      IValue.mkInt n]
  | none => IValue.mkTuple [IValue.mkString r.name, IValue.mkString r.overload_name]

/-- The canonical identifier of a record, in the words of the data model: the bare name
when the overload name is empty, `name + "." + overload_name` otherwise. -/
def canonical_identifier (r : OperatorRecord) : String :=
  if r.overload_name = "" then r.name else r.name ++ "." ++ r.overload_name

/-- A well-formed bytecode sequence with a valid version: element 0 is an `int64_t`
version `≥ 1`, and the elements from index 1 on are method entries whose operators
section (slot 1 of the body) lists the encoded `methods`, one list of records per
method. -/
def well_formed_operators (bytecode_ivalues : List IValue) (version : Int)
    (methods : List (List OperatorRecord)) : Prop :=
  1 ≤ version ∧ is_int64 version ∧
    ∃ entries, bytecode_ivalues = IValue.mkInt version :: entries ∧
      List.Forall₂ (fun entry ops => method_section 1 entry (ops.map OperatorRecord.toIValue))
        entries methods

/-- A bytecode sequence well-formed for the type table: the elements from index 1 on
are method entries whose type table section (slot `slot` of the body) lists the
signatures `tables`, one list of strings per method. -/
def well_formed_types (slot : Nat) (bytecode_ivalues : List IValue)
    (tables : List (List String)) : Prop :=
  List.Forall₂ (fun entry table => method_section slot entry (table.map IValue.mkString))
    (bytecode_ivalues.drop 1) tables

/-- The union of the parser's tokens over a list of signatures, every signature being
parsed, repeated or not. -/
def union_of_tokens (parse : String → Except String (List String)) (signatures : List String) :
    Except String (List String) :=
  match signatures with
  | [] => Except.ok []
  | signature :: rest => do
    let tokens ← parse signature
    let others ← union_of_tokens parse rest
    pure (tokens ++ others)

/-- An operator record tuple given by its fields: the name, the overload name, and the
fields that follow them (none for a record of exactly two fields). -/
structure OperatorFields where
  name : String
  overload_name : String
  more : List IValue

/-- The tuple `[name, overload_name, more...]`. -/
def OperatorFields.toIValue (r : OperatorFields) : IValue :=
  IValue.mkTuple (IValue.mkString r.name :: IValue.mkString r.overload_name :: r.more)

/-- The canonical identifier of a record tuple, in the words of the data model. -/
def OperatorFields.identifier (r : OperatorFields) : String :=
  if r.overload_name = "" then r.name else r.name ++ "." ++ r.overload_name

/-- The third field of a record tuple, when there is one, is an integer (the
schema-arg-count); further fields are unconstrained. -/
def OperatorFields.well_formed (r : OperatorFields) : Prop :=
  r.more = [] ∨ ∃ n rest, r.more = IValue.mkInt n :: rest

/-- The `OperatorInfo` lines 176-181 build for a record tuple. -/
def OperatorFields.info (r : OperatorFields) : OperatorInfo :=
  match r.more with
  | IValue.mkInt n :: _ => { num_schema_args := some (static_cast_int n) }
  | _ => { num_schema_args := none }

/-- A well-formed bytecode sequence with a valid version, its operator records given
by their fields: element 0 is an `int64_t` version `≥ 1`, the elements from index 1 on
are method entries whose operators section (slot 1 of the body) lists the tuples of
`methods`, and every record with more than two fields has an integer third field. -/
def well_formed_records (bytecode_ivalues : List IValue) (version : Int)
    (methods : List (List OperatorFields)) : Prop :=
  1 ≤ version ∧ is_int64 version ∧
    (∀ ops ∈ methods, ∀ r ∈ ops, OperatorFields.well_formed r) ∧
    ∃ entries, bytecode_ivalues = IValue.mkInt version :: entries ∧
      List.Forall₂ (fun entry ops => method_section 1 entry (ops.map OperatorFields.toIValue))
        entries methods

/-! ## Further concrete inputs -/

/-- A sequence of version 5 whose only operator record has three fields. -/
def legacy_bytecode : List IValue :=
  [IValue.mkInt 5, method_entry "forward" [op_record "aten::add" "Tensor" 2] ["Tensor"]]

/-- A sequence of version 5 whose only operator record has two fields. -/
def legacy_two_field_bytecode : List IValue :=
  [IValue.mkInt 5,
    method_entry "forward" [IValue.mkTuple [IValue.mkString "aten::add",
      IValue.mkString "Tensor"]] ["Tensor"]]

/-- A sequence of version 7 whose operator record carries the schema size
`2 ^ 32 + 2`, an `int64_t` outside the range of `int`. -/
def wide_count_bytecode : List IValue :=
  [IValue.mkInt 7, method_entry "forward" [op_record "aten::add" "Tensor" 4294967298] []]

/-- The records of the two methods of `sample_bytecode`. -/
def sample_methods : List (List OperatorRecord) :=
  [[{ name := "aten::add", overload_name := "Tensor", schema_arg_count := some 2 },
    { name := "aten::add", overload_name := "", schema_arg_count := none }],
   [{ name := "aten::mul", overload_name := "Scalar", schema_arg_count := some 3 }]]

/-- The type tables of the two methods of `sample_bytecode`. -/
def sample_tables : List (List String) :=
  [["Tensor", "Dict[int, Tensor]", "Tensor"], ["Dict[int, Tensor]", "int"]]

/-- A sequence of version 7 with two methods. -/
def sample_bytecode : List IValue :=
  [IValue.mkInt 7,
    method_entry "forward"
      [op_record "aten::add" "Tensor" 2,
        IValue.mkTuple [IValue.mkString "aten::add", IValue.mkString ""]]
      ["Tensor", "Dict[int, Tensor]", "Tensor"],
    method_entry "helper" [op_record "aten::mul" "Scalar" 3] ["Dict[int, Tensor]", "int"]]

/-- A sequence of version 7 whose method records `aten::add`/`Tensor` with four fields
(schema size 2, then a further field), `aten::mul`/`""` with two fields, and
`aten::div`/`Scalar` with three fields. -/
def mixed_arity_bytecode : List IValue :=
  [IValue.mkInt 7,
    method_entry "forward"
      [IValue.mkTuple [IValue.mkString "aten::add", IValue.mkString "Tensor", IValue.mkInt 2,
          IValue.mkString "since-7"],
        IValue.mkTuple [IValue.mkString "aten::mul", IValue.mkString ""],
        IValue.mkTuple [IValue.mkString "aten::div", IValue.mkString "Scalar", IValue.mkInt 3]]
      []]

/-- The four-field record of `mixed_arity_bytecode`. -/
def add_fields : OperatorFields :=
  { name := "aten::add", overload_name := "Tensor",
    more := [IValue.mkInt 2, IValue.mkString "since-7"] }

/-- The two-field record of `mixed_arity_bytecode`. -/
def mul_fields : OperatorFields :=
  { name := "aten::mul", overload_name := "", more := [] }

/-- The three-field record of `mixed_arity_bytecode`. -/
def div_fields : OperatorFields :=
  { name := "aten::div", overload_name := "Scalar", more := [IValue.mkInt 3] }

/-- A token parser defined on three signatures. -/
def sample_parse (signature : String) : Except String (List String) :=
  if signature = "Tensor" then Except.ok ["Tensor"]
  else if signature = "int" then Except.ok ["int"]
  else if signature = "Dict[int, Tensor]" then Except.ok ["Dict", "int", "Tensor"]
  else Except.error "unknown type"

/-- A runtime of version 6 for the monotonicity statement. -/
def older_runtime : RuntimeCompatibilityInfo :=
  { bytecode_version := 6,
    operator_info := [("aten::mul", { num_schema_args := some 2 })],
    supported_types := ["Tensor"] }

/-- The runtime `older_runtime` with version 9. -/
def newer_runtime : RuntimeCompatibilityInfo :=
  { bytecode_version := 9,
    operator_info := [("aten::mul", { num_schema_args := some 2 })],
    supported_types := ["Tensor"] }

/-- A model of version 6 with one unsupported type and one missing operator. -/
def faulty_model : ModelCompatibilityInfo :=
  { bytecode_version := 6,
    operator_info := [("aten::mul", { num_schema_args := some 2 }),
      ("aten::div", { num_schema_args := some 2 })],
    type_table := ["Tensor", "int"] }

/-! ## Lemmas on `is_compatible` -/

theorem check_version_errors (r : RuntimeCompatibilityInfo) (m : ModelCompatibilityInfo)
    (res : ModelCompatCheckResult) :
    (check_version r m res).errors = res.errors ++
      (if m.bytecode_version > r.bytecode_version then
        [version_error m.bytecode_version r.bytecode_version] else []) := by
  unfold check_version
  split <;> simp

theorem check_version_status (r : RuntimeCompatibilityInfo) (m : ModelCompatibilityInfo)
    (res : ModelCompatCheckResult) :
    (check_version r m res).status = ModelCompatibilityStatus.ERROR ↔
      res.status = ModelCompatibilityStatus.ERROR ∨ m.bytecode_version > r.bytecode_version := by
  unfold check_version
  split <;> simp [*]

theorem check_type_foldl_errors (sup : List String) (tt : List String)
    (res : ModelCompatCheckResult) :
    (tt.foldl (check_type sup) res).errors =
      res.errors ++ (tt.filter (fun t => decide (t ∉ sup))).map type_error := by
  induction tt generalizing res with
  | nil => simp
  | cons t rest ih =>
    rw [List.foldl_cons, ih]
    by_cases h : t ∈ sup <;> simp [check_type, h]

theorem check_type_foldl_status (sup : List String) (tt : List String)
    (res : ModelCompatCheckResult) :
    (tt.foldl (check_type sup) res).status = ModelCompatibilityStatus.ERROR ↔
      res.status = ModelCompatibilityStatus.ERROR ∨ ∃ t ∈ tt, t ∉ sup := by
  induction tt generalizing res with
  | nil => simp
  | cons t rest ih =>
    rw [List.foldl_cons, ih]
    by_cases h : t ∈ sup <;> simp [check_type, h]

theorem check_operator_errors (r : RuntimeCompatibilityInfo) (res : ModelCompatCheckResult)
    (op : String × OperatorInfo) :
    (check_operator r res op).errors = res.errors ++ operator_errors r op := by
  simp only [operator_errors, check_operator]
  repeat' split
  all_goals simp

theorem check_operator_status (r : RuntimeCompatibilityInfo) (res : ModelCompatCheckResult)
    (op : String × OperatorInfo) :
    (check_operator r res op).status = ModelCompatibilityStatus.ERROR ↔
      res.status = ModelCompatibilityStatus.ERROR ∨ operator_unusable r op := by
  simp only [operator_unusable, check_operator]
  cases hf : unordered_map_find r.operator_info op.1 with
  | none => simp
  | some info =>
    obtain ⟨n⟩ := info
    cases n with
    | none => simp
    | some rc =>
      cases hm : op.2.num_schema_args with
      | none => simp
      | some mc => by_cases hgt : mc > rc <;> simp [hgt]

theorem check_operator_foldl_errors (r : RuntimeCompatibilityInfo)
    (ops : List (String × OperatorInfo)) (res : ModelCompatCheckResult) :
    (ops.foldl (check_operator r) res).errors =
      res.errors ++ ops.flatMap (operator_errors r) := by
  induction ops generalizing res with
  | nil => simp
  | cons o rest ih =>
    rw [List.foldl_cons, ih, check_operator_errors]
    simp

theorem check_operator_foldl_status (r : RuntimeCompatibilityInfo)
    (ops : List (String × OperatorInfo)) (res : ModelCompatCheckResult) :
    (ops.foldl (check_operator r) res).status = ModelCompatibilityStatus.ERROR ↔
      res.status = ModelCompatibilityStatus.ERROR ∨ ∃ o ∈ ops, operator_unusable r o := by
  induction ops generalizing res with
  | nil => simp
  | cons o rest ih =>
    rw [List.foldl_cons, ih, check_operator_status]
    simp [or_assoc]

/-- The errors of `is_compatible`: version message, then type messages, then operator
messages. -/
theorem is_compatible_errors (r : RuntimeCompatibilityInfo) (m : ModelCompatibilityInfo) :
    (is_compatible r m).errors =
      (if m.bytecode_version > r.bytecode_version then
          [version_error m.bytecode_version r.bytecode_version] else []) ++
        (m.type_table.filter (fun t => decide (t ∉ r.supported_types))).map type_error ++
        m.operator_info.flatMap (operator_errors r) := by
  simp only [is_compatible]
  rw [check_operator_foldl_errors, check_type_foldl_errors, check_version_errors]
  simp

/-- The status of `is_compatible` is `ERROR` exactly when one of the assigning
branches is taken. -/
theorem is_compatible_status (r : RuntimeCompatibilityInfo) (m : ModelCompatibilityInfo) :
    (is_compatible r m).status = ModelCompatibilityStatus.ERROR ↔
      m.bytecode_version > r.bytecode_version ∨ (∃ t ∈ m.type_table, t ∉ r.supported_types) ∨
        ∃ o ∈ m.operator_info, operator_unusable r o := by
  simp only [is_compatible]
  rw [check_operator_foldl_status, check_type_foldl_status, check_version_status]
  simp [or_assoc]

theorem status_eq_OK_iff (s : ModelCompatibilityStatus) :
    s = ModelCompatibilityStatus.OK ↔ ¬ s = ModelCompatibilityStatus.ERROR := by
  cases s <;> simp

/-! ## Lemmas on the messages -/

theorem operator_errors_cases (r : RuntimeCompatibilityInfo) (o : String × OperatorInfo)
    (e : String) (he : e ∈ operator_errors r o) :
    e = not_found_error o.1 ∨ e = missing_schema_error o.1 ∨
      ∃ a b, e = schema_error o.1 a b := by
  simp only [operator_errors, check_operator] at he
  repeat' split at he
  all_goals simp at he
  · exact Or.inl he
  · exact Or.inr (Or.inl he)
  · exact Or.inr (Or.inr ⟨_, _, he⟩)

theorem head_append_left (p x : String) (c : Char) (h : p.data.head? = some c) :
    (p ++ x).data.head? = some c := by
  rw [String.data_append, List.head?_append, h]
  rfl

theorem not_prefix_of_head_ne (p s : List Char) (c d : Char) (hp : p.head? = some c)
    (hs : s.head? = some d) (h : c ≠ d) : ¬ p <+: s := by
  rintro ⟨t, rfl⟩
  rw [List.head?_append, hp] at hs
  simp only [Option.or, Option.some.injEq] at hs
  exact h hs

theorem operator_error_head (r : RuntimeCompatibilityInfo) (o : String × OperatorInfo)
    (e : String) (he : e ∈ operator_errors r o) : e.data.head? = some 'O' := by
  rcases operator_errors_cases r o e he with h | h | ⟨a, b, h⟩
  · rw [h, not_found_error]
    exact head_append_left _ _ _ (head_append_left _ _ _ rfl)
  · rw [h, missing_schema_error]
    exact head_append_left _ _ _ (head_append_left _ _ _ rfl)
  · rw [h, schema_error]
    repeat apply head_append_left
    rfl

theorem operator_error_not_type (r : RuntimeCompatibilityInfo) (o : String × OperatorInfo)
    (e : String) (he : e ∈ operator_errors r o) : ¬ is_type_error e :=
  not_prefix_of_head_ne _ _ 'P' 'O' rfl (operator_error_head r o e he) (by decide)

theorem operator_error_not_version (r : RuntimeCompatibilityInfo) (o : String × OperatorInfo)
    (e : String) (he : e ∈ operator_errors r o) : ¬ is_version_error e :=
  not_prefix_of_head_ne _ _ 'm' 'O' rfl (operator_error_head r o e he) (by decide)

theorem version_error_is_version (a b : Nat) : is_version_error (version_error a b) := by
  simp [is_version_error, version_error, String.data_append]

theorem version_error_not_type (a b : Nat) : ¬ is_type_error (version_error a b) := by
  unfold is_type_error version_error
  simp only [String.data_append, List.append_assoc]
  change ¬ (('P' :: _) <+: (('m' :: _) ++ _))
  rw [List.cons_append, List.cons_prefix_cons]
  simp

theorem type_error_is_type (t : String) : is_type_error (type_error t) := by
  simp [is_type_error, type_error, String.data_append]

theorem type_error_not_version (t : String) : ¬ is_version_error (type_error t) := by
  unfold is_version_error type_error
  simp only [String.data_append, List.append_assoc]
  change ¬ (('m' :: _) <+: (('P' :: _) ++ _))
  rw [List.cons_append, List.cons_prefix_cons]
  simp

theorem type_error_injective : Function.Injective type_error := by
  intro x y h
  have hd := congrArg String.data h
  simp only [type_error, String.data_append, List.append_assoc, List.append_cancel_left_eq,
    List.append_cancel_right_eq] at hd
  exact String.ext hd

theorem unordered_map_find_eq_none (m : List (String × OperatorInfo)) (k : String) :
    unordered_map_find m k = none ↔ k ∉ m.map Prod.fst := by
  induction m with
  | nil => simp [unordered_map_find]
  | cons e rest ih =>
    obtain ⟨k', v⟩ := e
    by_cases h : k' = k
    · simp [unordered_map_find, h]
    · simp [unordered_map_find, h, ih, Ne.symm h]

theorem unordered_map_find_of_mem (m : List (String × OperatorInfo))
    (hn : (m.map Prod.fst).Nodup) (e : String × OperatorInfo) (he : e ∈ m) :
    unordered_map_find m e.1 = some e.2 := by
  induction m with
  | nil => simp at he
  | cons x rest ih =>
    obtain ⟨k', v⟩ := x
    simp only [List.map_cons, List.nodup_cons] at hn
    rcases List.mem_cons.mp he with h | h
    · subst h
      simp [unordered_map_find]
    · have hne : k' ≠ e.1 := by
        intro hk
        exact hn.1 (hk ▸ List.mem_map_of_mem Prod.fst h)
      simp [unordered_map_find, hne, ih hn.2 h]

theorem operator_errors_eq_nil (r : RuntimeCompatibilityInfo) (o : String × OperatorInfo)
    (rc : Int) (hr : unordered_map_find r.operator_info o.1 = some { num_schema_args := some rc })
    (hm : o.2.num_schema_args = none ∨ ∃ mc, o.2.num_schema_args = some mc ∧ mc ≤ rc) :
    ∀ res, check_operator r res o = res := by
  intro res
  simp only [check_operator, hr]
  rcases hm with h | ⟨mc, h, hle⟩
  · simp [h]
  · simp [h, not_lt.mpr hle]

theorem operator_errors_not_found (r : RuntimeCompatibilityInfo) (o : String × OperatorInfo)
    (h : unordered_map_find r.operator_info o.1 = none) :
    operator_errors r o = [not_found_error o.1] := by
  simp [operator_errors, check_operator, h]

theorem operator_errors_missing_schema (r : RuntimeCompatibilityInfo)
    (o : String × OperatorInfo) (info : OperatorInfo)
    (h : unordered_map_find r.operator_info o.1 = some info)
    (hn : info.num_schema_args = none) :
    operator_errors r o = [missing_schema_error o.1] := by
  simp [operator_errors, check_operator, h, hn]

theorem filter_version_errors (r : RuntimeCompatibilityInfo) (m : ModelCompatibilityInfo) :
    (is_compatible r m).errors.filter (fun e => decide (is_version_error e)) =
      if m.bytecode_version > r.bytecode_version then
        [version_error m.bytecode_version r.bytecode_version] else [] := by
  rw [is_compatible_errors, List.filter_append, List.filter_append]
  have hT : ((m.type_table.filter (fun t => decide (t ∉ r.supported_types))).map
      type_error).filter (fun e => decide (is_version_error e)) = [] := by
    rw [List.filter_eq_nil_iff]
    intro e he
    obtain ⟨t, -, rfl⟩ := List.mem_map.mp he
    simpa using type_error_not_version t
  have hO : (m.operator_info.flatMap (operator_errors r)).filter
      (fun e => decide (is_version_error e)) = [] := by
    rw [List.filter_eq_nil_iff]
    intro e he
    obtain ⟨o, -, ho⟩ := List.mem_flatMap.mp he
    simpa using operator_error_not_version r o e ho
  rw [hT, hO]
  split
  · simp [version_error_is_version]
  · simp

theorem filter_type_errors (r : RuntimeCompatibilityInfo) (m : ModelCompatibilityInfo) :
    (is_compatible r m).errors.filter (fun e => decide (is_type_error e)) =
      (m.type_table.filter (fun t => decide (t ∉ r.supported_types))).map type_error := by
  rw [is_compatible_errors, List.filter_append, List.filter_append]
  have hV : (if m.bytecode_version > r.bytecode_version then
      [version_error m.bytecode_version r.bytecode_version] else []).filter
      (fun e => decide (is_type_error e)) = [] := by
    split
    · simp [version_error_not_type]
    · simp
  have hT : ((m.type_table.filter (fun t => decide (t ∉ r.supported_types))).map
      type_error).filter (fun e => decide (is_type_error e)) =
      (m.type_table.filter (fun t => decide (t ∉ r.supported_types))).map type_error := by
    rw [List.filter_eq_self]
    intro e he
    obtain ⟨t, -, rfl⟩ := List.mem_map.mp he
    simpa using type_error_is_type t
  have hO : (m.operator_info.flatMap (operator_errors r)).filter
      (fun e => decide (is_type_error e)) = [] := by
    rw [List.filter_eq_nil_iff]
    intro e he
    obtain ⟨o, -, ho⟩ := List.mem_flatMap.mp he
    simpa using operator_error_not_type r o e ho
  rw [hV, hT, hO]
  simp

theorem count_type_error (r : RuntimeCompatibilityInfo) (m : ModelCompatibilityInfo)
    (t : String) :
    (is_compatible r m).errors.count (type_error t) =
      if t ∈ r.supported_types then 0 else m.type_table.count t := by
  rw [is_compatible_errors, List.count_append, List.count_append]
  have hV : (if m.bytecode_version > r.bytecode_version then
      [version_error m.bytecode_version r.bytecode_version] else []).count (type_error t)
      = 0 := by
    rw [List.count_eq_zero]
    intro hmem
    split at hmem
    · rw [List.mem_singleton] at hmem
      exact version_error_not_type _ _ (hmem ▸ type_error_is_type t)
    · simp at hmem
  have hO : (m.operator_info.flatMap (operator_errors r)).count (type_error t) = 0 := by
    rw [List.count_eq_zero]
    intro hmem
    obtain ⟨o, -, ho⟩ := List.mem_flatMap.mp hmem
    exact operator_error_not_type r o _ ho (type_error_is_type t)
  rw [hV, hO, List.count_map_of_injective _ _ type_error_injective]
  by_cases hs : t ∈ r.supported_types
  · simp only [hs, if_true, Nat.zero_add, Nat.add_zero]
    rw [List.count_eq_zero]
    simp [hs]
  · simp only [hs, if_false, Nat.zero_add, Nat.add_zero]
    rw [List.count_filter]
    simpa using hs

theorem mentions_left (p x q : String) : mentions (p ++ x ++ q) x :=
  ⟨p.data, q.data, by simp [String.data_append]⟩

theorem mentions_append (s q x : String) (h : mentions s x) : mentions (s ++ q) x := by
  obtain ⟨a, b, hab⟩ := h
  exact ⟨a, b ++ q.data, by simp [String.data_append, ← hab]⟩

theorem mentions_right (p x : String) : mentions (p ++ x) x :=
  ⟨p.data, [], by simp [String.data_append]⟩

/-! ## Status and errors of `is_compatible` -/

/-- Claim C1, evaluated on a runtime and a model whose only disagreement is a schema
size (`aten::add.Tensor`, 3 arguments in the model, 2 in the runtime): the errors
list is non-empty and the status is `OK`, since the schema branch of lines 342-351
appends its message without assigning `result.status`. -/
theorem is_compatible_OK_with_errors :
    (is_compatible add_runtime add_model).status = ModelCompatibilityStatus.OK ∧
      (is_compatible add_runtime add_model).errors =
        ["Operator schema for'aten::add.Tensor' has 3 args in model but only 2 in the runtime"]
        ∧ (is_compatible add_runtime add_model).errors ≠ [] := by
  decide

/-- Claim C2, evaluated on scenario C (`foo.bar` with 3 arguments in the model and 2 in
the runtime): the schema message citing 3 and 2 is recorded, and the status returned
is `OK`, not `ERROR`. -/
theorem scenario_C_result :
    is_compatible scenario_C_runtime scenario_C_model =
      { status := ModelCompatibilityStatus.OK,
        errors := ["Operator schema for'foo.bar' has 3 args in model but only 2 in the runtime"] }
      ∧ unordered_map_find scenario_C_model.operator_info "foo.bar" =
          some { num_schema_args := some 3 }
      ∧ unordered_map_find scenario_C_runtime.operator_info "foo.bar" =
          some { num_schema_args := some 2 } := by
  decide

/-- Claim C3 fails as stated: the runtime `pre_schema_runtime` has the version, the
types and the very operator entry of `pre_schema_model`, an entry without a
schema-arg-count, and the verdict is `ERROR` with a "missing schema" message. -/
theorem superset_runtime_rejected :
    (pre_schema_runtime.bytecode_version ≥ pre_schema_model.bytecode_version ∧
      (∀ t ∈ pre_schema_model.type_table, t ∈ pre_schema_runtime.supported_types) ∧
      (∀ e ∈ pre_schema_model.operator_info, e ∈ pre_schema_runtime.operator_info)) ∧
    is_compatible pre_schema_runtime pre_schema_model =
      { status := ModelCompatibilityStatus.ERROR,
        errors := ["Operator 'aten::mul' missing from runtime (missing schema)"] } := by
  decide

/-- Claim C3, amended: if the runtime version is at least the model version, every
token of the model type table is supported, every operator entry of the model is an
entry of the runtime (whose keys are unique, as in any map) and every operator entry of
the model carries a schema-arg-count, then `is_compatible` returns `OK` with no errors. -/
theorem superset_runtime_with_schema_ok (r : RuntimeCompatibilityInfo)
    (m : ModelCompatibilityInfo)
    (hkeys : (r.operator_info.map Prod.fst).Nodup)
    (hv : r.bytecode_version ≥ m.bytecode_version)
    (ht : ∀ t ∈ m.type_table, t ∈ r.supported_types)
    (ho : ∀ e ∈ m.operator_info, e ∈ r.operator_info)
    (hs : ∀ e ∈ m.operator_info, e.2.num_schema_args ≠ none) :
    is_compatible r m = { status := ModelCompatibilityStatus.OK, errors := [] } := by
  have hfind : ∀ e ∈ m.operator_info, unordered_map_find r.operator_info e.1 = some e.2 :=
    fun e he => unordered_map_find_of_mem _ hkeys e (ho e he)
  have hstatus : (is_compatible r m).status = ModelCompatibilityStatus.OK := by
    rw [status_eq_OK_iff, is_compatible_status]
    rintro (h | ⟨t, htm, hts⟩ | ⟨o, hom, hu⟩)
    · exact absurd hv (not_le.mpr h)
    · exact hts (ht t htm)
    · rcases hu with hu | hu
      · rw [hfind o hom] at hu
        exact Option.noConfusion hu
      · rw [hfind o hom] at hu
        have h2 : o.2 = { num_schema_args := none } := Option.some.inj hu
        exact hs o hom (by rw [h2])
  have herrors : (is_compatible r m).errors = [] := by
    rw [is_compatible_errors]
    have h1 : ¬ m.bytecode_version > r.bytecode_version := not_lt.mpr hv
    have h2 : m.type_table.filter (fun t => decide (t ∉ r.supported_types)) = [] := by
      rw [List.filter_eq_nil_iff]
      intro t htm
      simpa using ht t htm
    have h3 : m.operator_info.flatMap (operator_errors r) = [] := by
      rw [List.flatMap_eq_nil_iff]
      intro o hom
      cases hn : o.2.num_schema_args with
      | none => exact absurd hn (hs o hom)
      | some mc =>
        have hinfo : o.2 = { num_schema_args := some mc } := by
          rw [← hn]
        have hres := operator_errors_eq_nil r o mc
          (by rw [hfind o hom, hinfo]) (Or.inr ⟨mc, hn, le_refl _⟩)
          { status := ModelCompatibilityStatus.OK, errors := [] }
        simp [operator_errors, hres]
    rw [if_neg h1, h2, h3]
    rfl
  cases hres : is_compatible r m with
  | mk st er =>
    rw [hres] at hstatus herrors
    simp only at hstatus herrors
    rw [hstatus, herrors]

/-- Claim C3, amended, at a runtime of version 7 that knows `aten::mul` (2 arguments)
and `aten::add`, and a model of version 6 using `aten::mul` (2 arguments). -/
theorem superset_runtime_with_schema_ok_witness :
    is_compatible mul_runtime mul_model =
      { status := ModelCompatibilityStatus.OK, errors := [] } :=
  superset_runtime_with_schema_ok mul_runtime mul_model (by decide) (by decide) (by decide)
    (by decide) (by decide)

/-- Claim C5: if some identifier of the model's operators is not a key of the runtime's
operators, `is_compatible` returns `ERROR` and its errors contain
`Operator '<identifier>' missing from runtime (not found)`. -/
theorem missing_operator_not_found (r : RuntimeCompatibilityInfo) (m : ModelCompatibilityInfo)
    (id : String) (hm : id ∈ m.operator_info.map Prod.fst)
    (hr : id ∉ r.operator_info.map Prod.fst) :
    (is_compatible r m).status = ModelCompatibilityStatus.ERROR ∧
      ("Operator '" ++ id ++ "' missing from runtime (not found)") ∈
        (is_compatible r m).errors := by
  obtain ⟨o, hom, rfl⟩ := List.mem_map.mp hm
  have hnone := (unordered_map_find_eq_none r.operator_info o.1).mpr hr
  constructor
  · rw [is_compatible_status]
    exact Or.inr (Or.inr ⟨o, hom, Or.inl hnone⟩)
  · rw [is_compatible_errors]
    refine List.mem_append_right _ (List.mem_flatMap.mpr ⟨o, hom, ?_⟩)
    rw [operator_errors_not_found r o hnone]
    exact List.mem_singleton.mpr rfl

/-- Claim C5 at scenario E: the model uses `baz`, the runtime has no such operator. -/
theorem missing_operator_not_found_witness :
    (is_compatible scenario_E_runtime scenario_E_model).status =
        ModelCompatibilityStatus.ERROR ∧
      "Operator 'baz' missing from runtime (not found)" ∈
        (is_compatible scenario_E_runtime scenario_E_model).errors :=
  missing_operator_not_found scenario_E_runtime scenario_E_model "baz" (by decide) (by decide)

/-- Claim C6: if an identifier of the model's operators is a key of the runtime's
operators whose runtime entry has no schema-arg-count, `is_compatible` returns
`ERROR` and its errors contain `Operator '<identifier>' missing from runtime
(missing schema)`, whatever `OperatorInfo` the model holds for the identifier. -/
theorem runtime_operator_without_schema (r : RuntimeCompatibilityInfo)
    (m : ModelCompatibilityInfo) (id : String) (model_op_info runtime_op_info : OperatorInfo)
    (hm : (id, model_op_info) ∈ m.operator_info)
    (hr : unordered_map_find r.operator_info id = some runtime_op_info)
    (hn : runtime_op_info.num_schema_args = none) :
    (is_compatible r m).status = ModelCompatibilityStatus.ERROR ∧
      ("Operator '" ++ id ++ "' missing from runtime (missing schema)") ∈
        (is_compatible r m).errors := by
  constructor
  · rw [is_compatible_status]
    refine Or.inr (Or.inr ⟨(id, model_op_info), hm, Or.inr ?_⟩)
    rw [hr, ← hn]
  · rw [is_compatible_errors]
    refine List.mem_append_right _ (List.mem_flatMap.mpr ⟨(id, model_op_info), hm, ?_⟩)
    rw [operator_errors_missing_schema r (id, model_op_info) runtime_op_info hr hn]
    exact List.mem_singleton.mpr rfl

/-- Claim C6 at a runtime listing `aten::mul` without schema, once for a model entry
with a schema-arg-count and once for a model entry without one. -/
theorem runtime_operator_without_schema_witness :
    ((is_compatible pre_schema_runtime
        { mul_model with bytecode_version := 5 }).status = ModelCompatibilityStatus.ERROR ∧
      "Operator 'aten::mul' missing from runtime (missing schema)" ∈
        (is_compatible pre_schema_runtime { mul_model with bytecode_version := 5 }).errors) ∧
    ((is_compatible pre_schema_runtime pre_schema_model).status =
        ModelCompatibilityStatus.ERROR ∧
      "Operator 'aten::mul' missing from runtime (missing schema)" ∈
        (is_compatible pre_schema_runtime pre_schema_model).errors) :=
  ⟨runtime_operator_without_schema pre_schema_runtime { mul_model with bytecode_version := 5 }
      "aten::mul" { num_schema_args := some 2 } { num_schema_args := none }
      (by decide) (by decide) rfl,
    runtime_operator_without_schema pre_schema_runtime pre_schema_model
      "aten::mul" { num_schema_args := none } { num_schema_args := none }
      (by decide) (by decide) rfl⟩

/-- Claim C7: a model operator whose identifier the runtime maps to a schema-arg-count
`rc` leaves the result of the operator loop unchanged (no message, no status change)
when its own schema-arg-count is absent or at most `rc`; and if every model operator
is of that kind, the model version is at most the runtime version and every model
type is supported, `is_compatible` returns `OK` with no errors. -/
theorem compatible_operator_no_error (r : RuntimeCompatibilityInfo)
    (m : ModelCompatibilityInfo) :
    (∀ (id : String) (model_op_info : OperatorInfo) (rc : Int),
      unordered_map_find r.operator_info id = some { num_schema_args := some rc } →
      (model_op_info.num_schema_args = none ∨
        ∃ mc, model_op_info.num_schema_args = some mc ∧ mc ≤ rc) →
      operator_errors r (id, model_op_info) = [] ∧
        ∀ result, check_operator r result (id, model_op_info) = result) ∧
    (m.bytecode_version ≤ r.bytecode_version →
      (∀ t ∈ m.type_table, t ∈ r.supported_types) →
      (∀ o ∈ m.operator_info, ∃ rc,
        unordered_map_find r.operator_info o.1 = some { num_schema_args := some rc } ∧
        (o.2.num_schema_args = none ∨ ∃ mc, o.2.num_schema_args = some mc ∧ mc ≤ rc)) →
      is_compatible r m = { status := ModelCompatibilityStatus.OK, errors := [] }) := by
  constructor
  · intro id info rc hr hm
    have hres := operator_errors_eq_nil r (id, info) rc hr hm
    exact ⟨by simp [operator_errors, hres], hres⟩
  · intro hv ht ho
    have hops : ∀ (ops : List (String × OperatorInfo)) (res : ModelCompatCheckResult),
        (∀ o ∈ ops, o ∈ m.operator_info) → ops.foldl (check_operator r) res = res := by
      intro ops
      induction ops with
      | nil => intro res _; rfl
      | cons o rest ih =>
        intro res hsub
        obtain ⟨rc, hr, hm⟩ := ho o (hsub o (List.mem_cons_self _ _))
        rw [List.foldl_cons, operator_errors_eq_nil r o rc hr hm res]
        exact ih res (fun x hx => hsub x (List.mem_cons_of_mem _ hx))
    have htypes : ∀ (tt : List String) (res : ModelCompatCheckResult),
        (∀ t ∈ tt, t ∈ r.supported_types) → tt.foldl (check_type r.supported_types) res = res := by
      intro tt
      induction tt with
      | nil => intro res _; rfl
      | cons t rest ih =>
        intro res hsub
        have hmem : t ∈ r.supported_types := hsub t (List.mem_cons_self _ _)
        rw [List.foldl_cons]
        simp only [check_type, hmem, not_true_eq_false, if_false]
        exact ih res (fun x hx => hsub x (List.mem_cons_of_mem _ hx))
    simp only [is_compatible]
    rw [hops _ _ (fun o h => h), htypes _ _ ht]
    simp [check_version, not_lt.mpr hv]

/-- Claim C7 at scenario D: `foo.bar` has 2 arguments in the model and 5 in the
runtime, and the verdict is `OK` with no errors. -/
theorem compatible_operator_no_error_witness :
    (operator_errors scenario_D_runtime ("foo.bar", { num_schema_args := some 2 }) = [] ∧
      ∀ result, check_operator scenario_D_runtime result
        ("foo.bar", { num_schema_args := some 2 }) = result) ∧
    is_compatible scenario_D_runtime scenario_D_model =
      { status := ModelCompatibilityStatus.OK, errors := [] } :=
  ⟨(compatible_operator_no_error scenario_D_runtime scenario_D_model).1 "foo.bar"
      { num_schema_args := some 2 } 5 (by decide) (Or.inr ⟨2, rfl, by decide⟩),
    (compatible_operator_no_error scenario_D_runtime scenario_D_model).2 (by decide)
      (by decide)
      (by
        intro o ho
        have ho2 : o = ("foo.bar", { num_schema_args := some 2 }) := by
          simpa [scenario_D_model] using ho
        subst ho2
        exact ⟨5, by decide, Or.inr ⟨2, rfl, by decide⟩⟩)⟩

/-- Claim C8: the errors of `is_compatible` contain a bytecode-version message if and
only if the model version exceeds the runtime version; in that case there is exactly
one such message, it contains the decimal renderings of both versions, and the status
is `ERROR`. -/
theorem version_error_iff (r : RuntimeCompatibilityInfo) (m : ModelCompatibilityInfo) :
    ((∃ e ∈ (is_compatible r m).errors, is_version_error e) ↔
        m.bytecode_version > r.bytecode_version) ∧
    (m.bytecode_version > r.bytecode_version →
      (is_compatible r m).errors.filter (fun e => decide (is_version_error e)) =
          ["model bytecode version " ++ toString m.bytecode_version ++
            "is greater than the runtimes " ++ toString r.bytecode_version] ∧
        mentions (version_error m.bytecode_version r.bytecode_version)
          (toString m.bytecode_version) ∧
        mentions (version_error m.bytecode_version r.bytecode_version)
          (toString r.bytecode_version) ∧
        (is_compatible r m).status = ModelCompatibilityStatus.ERROR) := by
  have hfilter := filter_version_errors r m
  constructor
  · constructor
    · rintro ⟨e, he, hv⟩
      by_contra hgt
      rw [if_neg hgt, List.filter_eq_nil_iff] at hfilter
      exact hfilter e he (by simpa using hv)
    · intro hgt
      rw [if_pos hgt] at hfilter
      have hmem : version_error m.bytecode_version r.bytecode_version ∈
          (is_compatible r m).errors.filter (fun e => decide (is_version_error e)) := by
        rw [hfilter]
        exact List.mem_singleton.mpr rfl
      exact ⟨_, (List.mem_filter.mp hmem).1, version_error_is_version _ _⟩
  · intro hgt
    rw [if_pos hgt] at hfilter
    refine ⟨hfilter, ?_, ?_, ?_⟩
    · exact mentions_append _ _ _ (mentions_append _ _ _ (mentions_right _ _))
    · exact mentions_right _ _
    · rw [is_compatible_status]
      exact Or.inl hgt

/-- Claim C8 at scenario A: model version 8, runtime version 6; the single version
message mentions "8" and "6" and the status is `ERROR`. -/
theorem version_error_iff_witness :
    (is_compatible scenario_A_runtime scenario_A_model).errors.filter
        (fun e => decide (is_version_error e)) =
      ["model bytecode version 8is greater than the runtimes 6"] ∧
    mentions (version_error 8 6) "8" ∧ mentions (version_error 8 6) "6" ∧
    (is_compatible scenario_A_runtime scenario_A_model).status =
      ModelCompatibilityStatus.ERROR :=
  (version_error_iff scenario_A_runtime scenario_A_model).2 (by decide)

/-- Claim C9: the type messages among the errors of `is_compatible` are, in order,
one message per token of the model type table that the runtime does not support, each
naming its token; the message of a token occurs as often as the token occurs
unsupported in the type table, so exactly once when the table is duplicate-free (a
set) and never for a supported token; and one unsupported token makes the status
`ERROR`. -/
theorem type_errors_exact (r : RuntimeCompatibilityInfo) (m : ModelCompatibilityInfo) :
    (is_compatible r m).errors.filter (fun e => decide (is_type_error e)) =
        (m.type_table.filter (fun t => decide (t ∉ r.supported_types))).map
          (fun t => "Primitive type: '" ++ t ++ "' is not supported in current runtime") ∧
    (∀ t, mentions (type_error t) t) ∧
    (∀ t, (is_compatible r m).errors.count (type_error t) =
        if t ∈ r.supported_types then 0 else m.type_table.count t) ∧
    (m.type_table.Nodup → ∀ t ∈ m.type_table, t ∉ r.supported_types →
        (is_compatible r m).errors.count (type_error t) = 1) ∧
    ((∃ t ∈ m.type_table, t ∉ r.supported_types) →
        (is_compatible r m).status = ModelCompatibilityStatus.ERROR) := by
  refine ⟨filter_type_errors r m, fun t => mentions_left _ _ _, count_type_error r m, ?_, ?_⟩
  · intro hnd t htm hts
    rw [count_type_error, if_neg hts]
    exact List.count_eq_one_of_mem hnd htm
  · intro h
    rw [is_compatible_status]
    exact Or.inr (Or.inl h)

/-- Claim C9 at scenario B: model types `Tensor` and `int`, runtime types `Tensor`;
the message for `int` occurs exactly once and the status is `ERROR`. -/
theorem type_errors_exact_witness :
    (is_compatible scenario_B_runtime scenario_B_model).errors.count
        "Primitive type: 'int' is not supported in current runtime" = 1 ∧
    (is_compatible scenario_B_runtime scenario_B_model).status =
      ModelCompatibilityStatus.ERROR :=
  ⟨(type_errors_exact scenario_B_runtime scenario_B_model).2.2.2.1 (by decide) "int"
      (by decide) (by decide),
    (type_errors_exact scenario_B_runtime scenario_B_model).2.2.2.2
      ⟨"int", by decide, by decide⟩⟩

/-! ## Bytecode version extractor -/

theorem static_cast_uint64_of_pos (v : Int) (hpos : 0 < v) (h : is_int64 v) :
    (static_cast_uint64 v : Int) = v := by
  unfold static_cast_uint64
  have hlt : v < 2 ^ 64 := lt_trans h.2 (by norm_num)
  rw [Int.emod_eq_of_lt (le_of_lt hpos) hlt]
  exact Int.toNat_of_nonneg (le_of_lt hpos)

/-- Claim C4: on a value sequence (whose integers are `int64_t` values),
`_get_model_bytecode_version` returns `v` exactly when the sequence is non-empty and
its element 0 is an integer `v` with `v ≥ 1`; it fails when the sequence is empty,
when element 0 is not an integer, and when element 0 is an integer `≤ 0`. -/
theorem get_model_bytecode_version_spec (bytecode_ivalues : List IValue)
    (hrange : ∀ v rest, bytecode_ivalues = IValue.mkInt v :: rest → is_int64 v) :
    (∀ n : Nat, _get_model_bytecode_version bytecode_ivalues = Except.ok n ↔
      ∃ v rest, bytecode_ivalues = IValue.mkInt v :: rest ∧ 1 ≤ v ∧ v = (n : Int)) ∧
    (bytecode_ivalues = [] → ∃ e, _get_model_bytecode_version bytecode_ivalues = Except.error e) ∧
    (∀ x rest, bytecode_ivalues = x :: rest → x.isInt = false →
      ∃ e, _get_model_bytecode_version bytecode_ivalues = Except.error e) ∧
    (∀ v rest, bytecode_ivalues = IValue.mkInt v :: rest → v ≤ 0 →
      ∃ e, _get_model_bytecode_version bytecode_ivalues = Except.error e) := by
  refine ⟨?_, ?_, ?_, ?_⟩
  · intro n
    constructor
    · intro h
      cases bytecode_ivalues with
      | nil => simp [_get_model_bytecode_version] at h
      | cons x rest =>
        cases x with
        | mkInt v =>
          by_cases hpos : v > 0
          · simp only [_get_model_bytecode_version, hpos, if_true, Except.ok.injEq] at h
            refine ⟨v, rest, rfl, hpos, ?_⟩
            rw [← h]
            exact (static_cast_uint64_of_pos v hpos (hrange v rest rfl)).symm
          · simp [_get_model_bytecode_version, hpos] at h
        | mkNone => simp [_get_model_bytecode_version] at h
        | mkString s => simp [_get_model_bytecode_version] at h
        | mkTuple l => simp [_get_model_bytecode_version] at h
        | mkOther t => simp [_get_model_bytecode_version] at h
    · rintro ⟨v, rest, rfl, hv, hn⟩
      have hpos : v > 0 := hv
      simp only [_get_model_bytecode_version, hpos, if_true, Except.ok.injEq]
      have := static_cast_uint64_of_pos v hpos (hrange v rest rfl)
      omega
  · rintro rfl
    exact ⟨_, rfl⟩
  · rintro x rest rfl hx
    cases x with
    | mkInt v => simp [IValue.isInt] at hx
    | mkNone => exact ⟨_, rfl⟩
    | mkString s => exact ⟨_, rfl⟩
    | mkTuple l => exact ⟨_, rfl⟩
    | mkOther t => exact ⟨_, rfl⟩
  · rintro v rest rfl hv
    have hpos : ¬ v > 0 := not_lt.mpr hv
    refine ⟨"Expected model bytecode version > 0 got " ++ toString v, ?_⟩
    simp only [_get_model_bytecode_version, hpos, if_false]

/-- Claim C4 at the sequences `[7, forward, helper]` (version 7 is returned) and
`[0]` (the call fails). -/
theorem get_model_bytecode_version_spec_witness :
    _get_model_bytecode_version duplicate_ops_bytecode = Except.ok 7 ∧
    ∃ e, _get_model_bytecode_version [IValue.mkInt 0] = Except.error e :=
  ⟨((get_model_bytecode_version_spec duplicate_ops_bytecode
      (by
        intro v rest h
        have hv : v = 7 := by
          simp only [duplicate_ops_bytecode, List.cons.injEq, IValue.mkInt.injEq] at h
          exact h.1.symm
        subst hv
        decide)).1 7).mpr ⟨7, _, rfl, by decide, rfl⟩,
    (get_model_bytecode_version_spec [IValue.mkInt 0]
      (by
        intro v rest h
        have hv : v = 0 := by
          simp only [List.cons.injEq, IValue.mkInt.injEq] at h
          exact h.1.symm
        subst hv
        decide)).2.2.2 0 [] rfl (le_refl 0)⟩

/-! ## Operator extractor: which record is stored -/

theorem unordered_map_find_append (m₁ m₂ : List (String × OperatorInfo)) (k : String) :
    unordered_map_find (m₁ ++ m₂) k =
      (unordered_map_find m₁ k).or (unordered_map_find m₂ k) := by
  induction m₁ with
  | nil => simp [unordered_map_find]
  | cons e rest ih =>
    obtain ⟨k', v⟩ := e
    by_cases h : k' = k
    · simp [unordered_map_find, h]
    · simp [unordered_map_find, h, ih]

theorem unordered_map_find_emplace (m : List (String × OperatorInfo)) (k : String)
    (v : OperatorInfo) (k' : String) :
    unordered_map_find (unordered_map_emplace m k v) k' =
      (unordered_map_find m k').or (unordered_map_find [(k, v)] k') := by
  unfold unordered_map_emplace
  cases hk : unordered_map_find m k with
  | none => simp only [unordered_map_find_append]
  | some x =>
    by_cases h : k = k'
    · subst h
      simp [hk]
    · simp only [unordered_map_find, h, if_false]
      cases unordered_map_find m k' <;> rfl

theorem emplace_operators_find (operators : List IValue) :
    ∀ result result', emplace_operators operators result = Except.ok result' →
      ∃ records, operator_records_of operators = Except.ok records ∧
        ∀ id, unordered_map_find result' id =
          (unordered_map_find result id).or (unordered_map_find records id) := by
  induction operators with
  | nil =>
    intro result result' h
    simp only [emplace_operators, Except.ok.injEq] at h
    subst h
    exact ⟨[], rfl, fun id => by simp [unordered_map_find]⟩
  | cons op_tuple rest ih =>
    intro result result' h
    cases hrec : read_operator_record op_tuple with
    | error e => simp [emplace_operators, hrec, bind, Except.bind] at h
    | ok record =>
      simp only [emplace_operators, hrec, bind, Except.bind] at h
      obtain ⟨records, hrecords, hfind⟩ := ih _ _ h
      refine ⟨record :: records, ?_, ?_⟩
      · simp [operator_records_of, hrec, hrecords, bind, Except.bind, pure, Except.pure]
      · intro id
        rw [hfind id, unordered_map_find_emplace]
        have hcons : unordered_map_find (record :: records) id =
            (unordered_map_find [(record.1, record.2)] id).or
              (unordered_map_find records id) := by
          rw [← unordered_map_find_append]
          rfl
        rw [hcons]
        cases unordered_map_find result id <;>
          cases unordered_map_find [(record.1, record.2)] id <;> rfl

theorem emplace_methods_find (methods : List IValue) :
    ∀ result result', emplace_methods methods result = Except.ok result' →
      ∃ records, method_records_of methods = Except.ok records ∧
        ∀ id, unordered_map_find result' id =
          (unordered_map_find result id).or (unordered_map_find records id) := by
  induction methods with
  | nil =>
    intro result result' h
    simp only [emplace_methods, Except.ok.injEq] at h
    subst h
    exact ⟨[], rfl, fun id => by simp [unordered_map_find]⟩
  | cons method rest ih =>
    intro result result' h
    cases hops : method_operators method with
    | error e => simp [emplace_methods, hops, bind, Except.bind] at h
    | ok operators =>
      cases hem : emplace_operators operators result with
      | error e => simp [emplace_methods, hops, hem, bind, Except.bind] at h
      | ok mid =>
        simp only [emplace_methods, hops, hem, bind, Except.bind] at h
        obtain ⟨records, hrecords, hfind⟩ := emplace_operators_find operators _ _ hem
        obtain ⟨others, hothers, hfind2⟩ := ih _ _ h
        refine ⟨records ++ others, ?_, ?_⟩
        · simp [method_records_of, hops, hrecords, hothers, bind, Except.bind, pure,
            Except.pure]
        · intro id
          rw [hfind2 id, hfind id, unordered_map_find_append]
          cases unordered_map_find result id <;> cases unordered_map_find records id <;> rfl

/-- The mapping returned by `_get_model_ops_and_info` looks an identifier up as the
first record with that identifier in the traversal. -/
theorem get_model_ops_and_info_find (bytecode_ivalues : List IValue)
    (result : List (String × OperatorInfo)) (warnings : List String)
    (h : _get_model_ops_and_info bytecode_ivalues = Except.ok (result, warnings)) :
    ∃ records, operator_records bytecode_ivalues = Except.ok records ∧
      ∀ id, unordered_map_find result id = unordered_map_find records id := by
  unfold _get_model_ops_and_info at h
  cases hv : _get_model_bytecode_version bytecode_ivalues with
  | error e => simp [hv, bind, Except.bind] at h
  | ok version =>
    cases bytecode_ivalues with
    | nil => simp [_get_model_bytecode_version] at hv
    | cons x rest =>
      cases hm : emplace_methods rest [] with
      | error e => simp [hv, hm, bind, Except.bind] at h
      | ok res =>
        simp only [hv, bind, Except.bind, List.isEmpty_cons, Bool.false_eq_true, if_false,
          List.drop_succ_cons, List.drop_zero, hm, pure, Except.pure, Except.ok.injEq,
          Prod.mk.injEq] at h
        obtain ⟨records, hrecords, hfind⟩ := emplace_methods_find rest _ _ hm
        refine ⟨records, by simpa [operator_records] using hrecords, ?_⟩
        intro id
        rw [← h.1, hfind id]
        simp [unordered_map_find]

theorem unordered_map_find_first (records : List (String × OperatorInfo)) :
    ∀ (i : Nat) (a : String × OperatorInfo), records.get? i = some a →
      (∀ k c, k < i → records.get? k = some c → c.1 ≠ a.1) →
      unordered_map_find records a.1 = some a.2 := by
  induction records with
  | nil => intro i a h; simp at h
  | cons x rest ih =>
    intro i a h hfirst
    obtain ⟨k', v⟩ := x
    cases i with
    | zero =>
      simp only [List.get?_cons_zero, Option.some.injEq] at h
      subst h
      simp [unordered_map_find]
    | succ i =>
      have hne : k' ≠ a.1 := hfirst 0 (k', v) (Nat.succ_pos i) rfl
      simp only [unordered_map_find, hne, if_false]
      exact ih i a (by simpa using h)
        (fun k c hk hc => hfirst (k + 1) c (Nat.succ_lt_succ hk) (by simpa using hc))

/-- Claim C10 fails as stated: in `duplicate_ops_bytecode` the identifier
`aten::add.Tensor` is recorded with 2 arguments by the first method and with 3 by the
second, extraction succeeds, and the mapping holds 2, the earlier record. -/
theorem later_record_does_not_overwrite :
    operator_records duplicate_ops_bytecode =
      Except.ok [("aten::add.Tensor", { num_schema_args := some 2 }),
        ("aten::mul", { num_schema_args := some 2 }),
        ("aten::add.Tensor", { num_schema_args := some 3 })] ∧
    _get_model_ops_and_info duplicate_ops_bytecode =
      Except.ok ([("aten::add.Tensor", { num_schema_args := some 2 }),
        ("aten::mul", { num_schema_args := some 2 })], []) ∧
    unordered_map_find [("aten::add.Tensor", { num_schema_args := some 2 }),
        ("aten::mul", { num_schema_args := some 2 })] "aten::add.Tensor" ≠
      some { num_schema_args := some 3 } := by
  decide

/-- Claim C10, amended: for every bytecode value sequence on which
`_get_model_ops_and_info` succeeds, the traversal of its operator records succeeds,
and when two records at positions `i < j` of the traversal have the same canonical
identifier and none before `i` has it, the `OperatorInfo` stored under that identifier
is the one of record `i`, the earliest (first write wins). -/
theorem first_record_wins (bytecode_ivalues : List IValue)
    (result : List (String × OperatorInfo)) (warnings : List String)
    (h : _get_model_ops_and_info bytecode_ivalues = Except.ok (result, warnings)) :
    ∃ records, operator_records bytecode_ivalues = Except.ok records ∧
      ∀ (i j : Nat) (a b : String × OperatorInfo), i < j →
        records.get? i = some a → records.get? j = some b → a.1 = b.1 →
        (∀ k c, k < i → records.get? k = some c → c.1 ≠ a.1) →
        unordered_map_find result b.1 = some a.2 := by
  obtain ⟨records, hrecords, hfind⟩ := get_model_ops_and_info_find _ _ _ h
  refine ⟨records, hrecords, ?_⟩
  intro i j a b _ ha _ hab hfirst
  rw [← hab, hfind]
  exact unordered_map_find_first records i a ha hfirst

/-- Claim C10, amended, at `duplicate_ops_bytecode`: the records at positions 0 and 2
share `aten::add.Tensor`, and the mapping stores the 2 arguments of record 0. -/
theorem first_record_wins_witness :
    unordered_map_find [("aten::add.Tensor", { num_schema_args := some 2 }),
        ("aten::mul", { num_schema_args := some 2 })] "aten::add.Tensor" =
      some { num_schema_args := some 2 } := by
  obtain ⟨records, hrecords, hwin⟩ := first_record_wins duplicate_ops_bytecode
    [("aten::add.Tensor", { num_schema_args := some 2 }),
      ("aten::mul", { num_schema_args := some 2 })] [] (by decide)
  have hrec : records = [("aten::add.Tensor", { num_schema_args := some 2 }),
      ("aten::mul", { num_schema_args := some 2 }),
      ("aten::add.Tensor", { num_schema_args := some 3 })] := by
    have h2 : operator_records duplicate_ops_bytecode =
        Except.ok [("aten::add.Tensor", { num_schema_args := some 2 }),
          ("aten::mul", { num_schema_args := some 2 }),
          ("aten::add.Tensor", { num_schema_args := some 3 })] := by decide
    rw [hrecords] at h2
    exact Except.ok.inj h2
  subst hrec
  exact hwin 0 2 ("aten::add.Tensor", { num_schema_args := some 2 })
    ("aten::add.Tensor", { num_schema_args := some 3 }) (by decide) rfl rfl rfl
    (fun k c hk => absurd hk (Nat.not_lt_zero k))

/-! ## The errors as three segments -/

theorem operator_error_is_operator (r : RuntimeCompatibilityInfo) (o : String × OperatorInfo)
    (e : String) (he : e ∈ operator_errors r o) : is_operator_error e := by
  have hpre : ∀ p x : String, "Operator ".data <+: p.data → is_operator_error (p ++ x) := by
    intro p x hp
    unfold is_operator_error
    rw [String.data_append]
    exact List.IsPrefix.trans hp (List.prefix_append _ _)
  rcases operator_errors_cases r o e he with h | h | ⟨a, b, h⟩
  · rw [h, not_found_error]
    exact hpre _ _ (hpre _ _ (by decide))
  · rw [h, missing_schema_error]
    exact hpre _ _ (hpre _ _ (by decide))
  · rw [h, schema_error]
    exact hpre _ _ (hpre _ _ (hpre _ _ (hpre _ _ (hpre _ _ (hpre _ _ (by decide))))))

theorem version_error_not_operator (a b : Nat) : ¬ is_operator_error (version_error a b) := by
  refine not_prefix_of_head_ne _ _ 'O' 'm' rfl ?_ (by decide)
  unfold version_error
  repeat apply head_append_left
  rfl

theorem type_error_not_operator (t : String) : ¬ is_operator_error (type_error t) := by
  refine not_prefix_of_head_ne _ _ 'O' 'P' rfl ?_ (by decide)
  unfold type_error
  repeat apply head_append_left
  rfl

theorem filter_operator_errors (r : RuntimeCompatibilityInfo) (m : ModelCompatibilityInfo) :
    (is_compatible r m).errors.filter (fun e => decide (is_operator_error e)) =
      m.operator_info.flatMap (operator_errors r) := by
  rw [is_compatible_errors, List.filter_append, List.filter_append]
  have hV : (if m.bytecode_version > r.bytecode_version then
      [version_error m.bytecode_version r.bytecode_version] else []).filter
      (fun e => decide (is_operator_error e)) = [] := by
    split
    · simp [version_error_not_operator]
    · simp
  have hT : ((m.type_table.filter (fun t => decide (t ∉ r.supported_types))).map
      type_error).filter (fun e => decide (is_operator_error e)) = [] := by
    rw [List.filter_eq_nil_iff]
    intro e he
    obtain ⟨t, -, rfl⟩ := List.mem_map.mp he
    simpa using type_error_not_operator t
  have hO : (m.operator_info.flatMap (operator_errors r)).filter
      (fun e => decide (is_operator_error e)) = m.operator_info.flatMap (operator_errors r) := by
    rw [List.filter_eq_self]
    intro e he
    obtain ⟨o, -, ho⟩ := List.mem_flatMap.mp he
    simpa using operator_error_is_operator r o e ho
  rw [hV, hT, hO]
  simp

theorem operator_rejected_iff (r : RuntimeCompatibilityInfo) (o : String × OperatorInfo) :
    operator_rejected r o = true ↔
      (o.1 ∉ r.operator_info.map Prod.fst ∨
        (∃ info, unordered_map_find r.operator_info o.1 = some info ∧
          info.num_schema_args = none) ∨
        ∃ info rc mc, unordered_map_find r.operator_info o.1 = some info ∧
          info.num_schema_args = some rc ∧ o.2.num_schema_args = some mc ∧ mc > rc) := by
  rw [← unordered_map_find_eq_none]
  unfold operator_rejected
  cases hf : unordered_map_find r.operator_info o.1 with
  | none => simp
  | some info =>
    cases hr : info.num_schema_args with
    | none => simp [hr]
    | some rc =>
      cases hm : o.2.num_schema_args with
      | none => simp [hr]
      | some mc => simp [hr]

theorem operator_accepted_iff (r : RuntimeCompatibilityInfo) (o : String × OperatorInfo) :
    operator_rejected r o = false ↔
      ∃ rc, unordered_map_find r.operator_info o.1 = some { num_schema_args := some rc } ∧
        (o.2.num_schema_args = none ∨ ∃ mc, o.2.num_schema_args = some mc ∧ mc ≤ rc) := by
  unfold operator_rejected
  cases hf : unordered_map_find r.operator_info o.1 with
  | none => simp
  | some info =>
    obtain ⟨n⟩ := info
    cases n with
    | none => simp
    | some rc =>
      cases hm : o.2.num_schema_args with
      | none => simp
      | some mc => simp

theorem operator_errors_length (r : RuntimeCompatibilityInfo) (o : String × OperatorInfo) :
    (operator_errors r o).length = if operator_rejected r o = true then 1 else 0 := by
  cases hf : unordered_map_find r.operator_info o.1 with
  | none => simp [operator_errors, check_operator, operator_rejected, hf]
  | some info =>
    obtain ⟨n⟩ := info
    cases n with
    | none => simp [operator_errors, check_operator, operator_rejected, hf]
    | some rc =>
      cases hm : o.2.num_schema_args with
      | none => simp [operator_errors, check_operator, operator_rejected, hf, hm]
      | some mc =>
        by_cases hgt : mc > rc <;>
          simp [operator_errors, check_operator, operator_rejected, hf, hm, hgt]

theorem operator_errors_total_length (r : RuntimeCompatibilityInfo)
    (ops : List (String × OperatorInfo)) :
    (ops.flatMap (operator_errors r)).length = ops.countP (operator_rejected r) := by
  induction ops with
  | nil => rfl
  | cons o rest ih =>
    rw [List.flatMap_cons, List.length_append, ih, operator_errors_length, List.countP_cons]
    by_cases h : operator_rejected r o = true
    · simp [h]
      omega
    · simp [h]

theorem operator_unusable_iff (r : RuntimeCompatibilityInfo) (o : String × OperatorInfo) :
    operator_unusable r o ↔
      (o.1 ∉ r.operator_info.map Prod.fst ∨
        ∃ info, unordered_map_find r.operator_info o.1 = some info ∧
          info.num_schema_args = none) := by
  rw [← unordered_map_find_eq_none]
  unfold operator_unusable
  constructor
  · rintro (h | h)
    · exact Or.inl h
    · exact Or.inr ⟨_, h, rfl⟩
  · rintro (h | ⟨info, h, hn⟩)
    · exact Or.inl h
    · refine Or.inr ?_
      rw [h, ← hn]

theorem check_operator_congr (r₁ r₂ : RuntimeCompatibilityInfo)
    (h : r₁.operator_info = r₂.operator_info) : check_operator r₁ = check_operator r₂ := by
  funext res o
  simp only [check_operator, h]

theorem is_compatible_congr (r₁ r₂ : RuntimeCompatibilityInfo) (m : ModelCompatibilityInfo)
    (hops : r₁.operator_info = r₂.operator_info)
    (htypes : r₁.supported_types = r₂.supported_types)
    (h₁ : m.bytecode_version ≤ r₁.bytecode_version)
    (h₂ : m.bytecode_version ≤ r₂.bytecode_version) :
    is_compatible r₂ m = is_compatible r₁ m := by
  simp only [is_compatible, check_version, not_lt.mpr h₁, not_lt.mpr h₂, if_false, htypes,
    check_operator_congr r₁ r₂ hops]

theorem operator_errors_congr (r₁ r₂ : RuntimeCompatibilityInfo)
    (h : r₁.operator_info = r₂.operator_info) : operator_errors r₁ = operator_errors r₂ := by
  funext o
  simp only [operator_errors, check_operator_congr r₁ r₂ h]

theorem errors_ne_nil_of_ERROR (r : RuntimeCompatibilityInfo) (m : ModelCompatibilityInfo)
    (h : (is_compatible r m).status = ModelCompatibilityStatus.ERROR) :
    (is_compatible r m).errors ≠ [] := by
  rw [is_compatible_status] at h
  rw [is_compatible_errors]
  intro hnil
  simp only [List.append_eq_nil, List.map_eq_nil_iff, List.filter_eq_nil_iff,
    List.flatMap_eq_nil_iff] at hnil
  obtain ⟨⟨hV, hT⟩, hO⟩ := hnil
  rcases h with h | ⟨t, htm, hts⟩ | ⟨o, hom, hu⟩
  · rw [if_pos h] at hV
    exact List.cons_ne_nil _ _ hV
  · exact hT t htm (by simpa using hts)
  · have hlen := operator_errors_length r o
    rw [hO o hom] at hlen
    have hrej : operator_rejected r o = true := by
      rw [operator_rejected_iff]
      rcases (operator_unusable_iff r o).mp hu with h1 | h2
      · exact Or.inl h1
      · exact Or.inr (Or.inl h2)
    rw [if_pos hrej] at hlen
    exact absurd hlen (by decide)

/-! ## Monotonicity, accumulation and the two verdict characterisations -/

/-- Claim C14: for a model and two runtimes that differ only in `bytecode_version`,
with versions `r₁ ≤ r₂`, the type messages and the operator messages of
`is_compatible` are the same for both; if the result for `r₁` has no version message
then the result for `r₂` is the same result (same status, same errors) and has no
version message either; an `OK` for `r₁` stays `OK` for `r₂`; and every message of
the result for `r₁` other than the version message is still in the result for `r₂`. -/
theorem runtime_version_monotone (r₁ r₂ : RuntimeCompatibilityInfo)
    (m : ModelCompatibilityInfo)
    (hops : r₁.operator_info = r₂.operator_info)
    (htypes : r₁.supported_types = r₂.supported_types)
    (hle : r₁.bytecode_version ≤ r₂.bytecode_version) :
    (is_compatible r₁ m).errors.filter (fun e => decide (is_type_error e)) =
        (is_compatible r₂ m).errors.filter (fun e => decide (is_type_error e)) ∧
    (is_compatible r₁ m).errors.filter (fun e => decide (is_operator_error e)) =
        (is_compatible r₂ m).errors.filter (fun e => decide (is_operator_error e)) ∧
    ((¬ ∃ e ∈ (is_compatible r₁ m).errors, is_version_error e) →
        is_compatible r₂ m = is_compatible r₁ m ∧
          ¬ ∃ e ∈ (is_compatible r₂ m).errors, is_version_error e) ∧
    ((is_compatible r₁ m).status = ModelCompatibilityStatus.OK →
        is_compatible r₂ m = is_compatible r₁ m ∧
          (is_compatible r₂ m).status = ModelCompatibilityStatus.OK) ∧
    (∀ e ∈ (is_compatible r₁ m).errors, ¬ is_version_error e →
        e ∈ (is_compatible r₂ m).errors) := by
  have hno : ∀ r : RuntimeCompatibilityInfo,
      (¬ ∃ e ∈ (is_compatible r m).errors, is_version_error e) ↔
        m.bytecode_version ≤ r.bytecode_version := by
    intro r
    have hf := filter_version_errors r m
    constructor
    · intro h
      by_contra hgt
      rw [if_pos (not_le.mp hgt)] at hf
      have hmem : version_error m.bytecode_version r.bytecode_version ∈
          (is_compatible r m).errors.filter (fun e => decide (is_version_error e)) := by
        rw [hf]
        exact List.mem_singleton.mpr rfl
      exact h ⟨_, (List.mem_filter.mp hmem).1, version_error_is_version _ _⟩
    · rintro hle ⟨e, he, hv⟩
      rw [if_neg (not_lt.mpr hle), List.filter_eq_nil_iff] at hf
      exact hf e he (by simpa using hv)
  have hsame : m.bytecode_version ≤ r₁.bytecode_version →
      is_compatible r₂ m = is_compatible r₁ m :=
    fun h => is_compatible_congr r₁ r₂ m hops htypes h (le_trans h hle)
  refine ⟨?_, ?_, ?_, ?_, ?_⟩
  · rw [filter_type_errors, filter_type_errors, htypes]
  · rw [filter_operator_errors, filter_operator_errors, operator_errors_congr r₁ r₂ hops]
  · intro h
    have h1 := (hno r₁).mp h
    exact ⟨hsame h1, (hno r₂).mpr (le_trans h1 hle)⟩
  · intro hok
    have h1 : m.bytecode_version ≤ r₁.bytecode_version := by
      by_contra hgt
      have herr : (is_compatible r₁ m).status = ModelCompatibilityStatus.ERROR :=
        (is_compatible_status r₁ m).mpr (Or.inl (not_le.mp hgt))
      rw [hok] at herr
      exact ModelCompatibilityStatus.noConfusion herr
    refine ⟨hsame h1, ?_⟩
    rw [hsame h1]
    exact hok
  · intro e he hnv
    rw [is_compatible_errors] at he ⊢
    rcases List.mem_append.mp he with h12 | h3
    · rcases List.mem_append.mp h12 with h1 | h2
      · split at h1
        · rw [List.mem_singleton] at h1
          exact absurd (h1 ▸ version_error_is_version _ _) hnv
        · simp at h1
      · rw [← htypes]
        exact List.mem_append_left _ (List.mem_append_right _ h2)
    · rw [← operator_errors_congr r₁ r₂ hops]
      exact List.mem_append_right _ h3

/-- Claim C14 at a runtime of version 6 raised to version 9, for a model of version 6
with one unsupported type and one missing operator: the result is unchanged. -/
theorem runtime_version_monotone_witness :
    is_compatible newer_runtime faulty_model = is_compatible older_runtime faulty_model ∧
      ¬ ∃ e ∈ (is_compatible newer_runtime faulty_model).errors, is_version_error e :=
  (runtime_version_monotone older_runtime newer_runtime faulty_model rfl rfl
    (by decide)).2.2.1 (by decide)

/-- Claim C18: `is_compatible` does not short-circuit. Its errors are the version
message (when the model version exceeds the runtime version), followed by the type
messages of all unsupported tokens, followed by the messages of all operators; these
three segments are exactly the version, type and operator messages of the list; an
operator contributes one message when it is not found, lacks a runtime schema or
exceeds the runtime's schema size, and none otherwise; and the length of the list is
the sum of the three counts. -/
theorem errors_accumulate (r : RuntimeCompatibilityInfo) (m : ModelCompatibilityInfo) :
    (is_compatible r m).errors =
        (if m.bytecode_version > r.bytecode_version then
          ["model bytecode version " ++ toString m.bytecode_version ++
            "is greater than the runtimes " ++ toString r.bytecode_version] else []) ++
        (m.type_table.filter (fun t => decide (t ∉ r.supported_types))).map type_error ++
        m.operator_info.flatMap (operator_errors r) ∧
    ((is_compatible r m).errors.filter (fun e => decide (is_version_error e)) =
        (if m.bytecode_version > r.bytecode_version then
          [version_error m.bytecode_version r.bytecode_version] else []) ∧
      (is_compatible r m).errors.filter (fun e => decide (is_type_error e)) =
        (m.type_table.filter (fun t => decide (t ∉ r.supported_types))).map type_error ∧
      (is_compatible r m).errors.filter (fun e => decide (is_operator_error e)) =
        m.operator_info.flatMap (operator_errors r)) ∧
    (∀ o, (operator_errors r o).length = if operator_rejected r o = true then 1 else 0) ∧
    (∀ o, operator_rejected r o = true ↔
      (o.1 ∉ r.operator_info.map Prod.fst ∨
        (∃ info, unordered_map_find r.operator_info o.1 = some info ∧
          info.num_schema_args = none) ∨
        ∃ info rc mc, unordered_map_find r.operator_info o.1 = some info ∧
          info.num_schema_args = some rc ∧ o.2.num_schema_args = some mc ∧ mc > rc)) ∧
    (is_compatible r m).errors.length =
      (if m.bytecode_version > r.bytecode_version then 1 else 0) +
        (m.type_table.filter (fun t => decide (t ∉ r.supported_types))).length +
        m.operator_info.countP (operator_rejected r) := by
  refine ⟨is_compatible_errors r m,
    ⟨filter_version_errors r m, filter_type_errors r m, filter_operator_errors r m⟩,
    operator_errors_length r, operator_rejected_iff r, ?_⟩
  rw [is_compatible_errors, List.length_append, List.length_append, List.length_map,
    operator_errors_total_length]
  split <;> rfl

/-- Claim C19: the errors of `is_compatible` are empty if and only if the model
version is at most the runtime version, every token of the model type table is
supported, and every model operator is mapped by the runtime to an entry with a
schema-arg-count `rc` such that the model's schema-arg-count is absent or at most
`rc`. -/
theorem errors_empty_iff (r : RuntimeCompatibilityInfo) (m : ModelCompatibilityInfo) :
    (is_compatible r m).errors = [] ↔
      (m.bytecode_version ≤ r.bytecode_version ∧
        (∀ t ∈ m.type_table, t ∈ r.supported_types) ∧
        ∀ o ∈ m.operator_info, ∃ rc,
          unordered_map_find r.operator_info o.1 = some { num_schema_args := some rc } ∧
          (o.2.num_schema_args = none ∨ ∃ mc, o.2.num_schema_args = some mc ∧ mc ≤ rc)) := by
  have hop : ∀ o, operator_errors r o = [] ↔ operator_rejected r o = false := by
    intro o
    rw [← List.length_eq_zero, operator_errors_length]
    cases operator_rejected r o <;> simp
  rw [is_compatible_errors]
  simp only [List.append_eq_nil, List.map_eq_nil_iff, List.filter_eq_nil_iff,
    List.flatMap_eq_nil_iff]
  constructor
  · rintro ⟨⟨hV, hT⟩, hO⟩
    refine ⟨?_, ?_, ?_⟩
    · by_contra hgt
      rw [if_pos (not_le.mp hgt)] at hV
      exact List.cons_ne_nil _ _ hV
    · intro t ht
      simpa using hT t ht
    · intro o ho
      exact (operator_accepted_iff r o).mp ((hop o).mp (hO o ho))
  · rintro ⟨hV, hT, hO⟩
    refine ⟨⟨?_, ?_⟩, ?_⟩
    · rw [if_neg (not_lt.mpr hV)]
    · intro t ht
      simpa using hT t ht
    · intro o ho
      exact (hop o).mpr ((operator_accepted_iff r o).mpr (hO o ho))

/-- Claim C19 at scenario D (`foo.bar` with 2 arguments in the model, 5 in the
runtime): the errors are empty. -/
theorem errors_empty_iff_witness :
    (is_compatible scenario_D_runtime scenario_D_model).errors = [] :=
  (errors_empty_iff scenario_D_runtime scenario_D_model).mpr
    ⟨by decide, by decide, by
      intro o ho
      have ho2 : o = ("foo.bar", { num_schema_args := some 2 }) := by
        simpa [scenario_D_model] using ho
      subst ho2
      exact ⟨5, by decide, Or.inr ⟨2, rfl, by decide⟩⟩⟩

/-- Claim C20: the status returned by `is_compatible` is `ERROR` exactly when the
model version exceeds the runtime version, or some token of the model type table is
not supported, or some model operator is absent from the runtime's operators or has
a runtime entry without a schema-arg-count; and a status `ERROR` comes with a
non-empty errors list. -/
theorem status_ERROR_iff (r : RuntimeCompatibilityInfo) (m : ModelCompatibilityInfo) :
    ((is_compatible r m).status = ModelCompatibilityStatus.ERROR ↔
      (m.bytecode_version > r.bytecode_version ∨
        (∃ t ∈ m.type_table, t ∉ r.supported_types) ∨
        ∃ o ∈ m.operator_info, o.1 ∉ r.operator_info.map Prod.fst ∨
          ∃ info, unordered_map_find r.operator_info o.1 = some info ∧
            info.num_schema_args = none)) ∧
    ((is_compatible r m).status = ModelCompatibilityStatus.ERROR →
      (is_compatible r m).errors ≠ []) := by
  refine ⟨?_, errors_ne_nil_of_ERROR r m⟩
  rw [is_compatible_status]
  constructor
  · rintro (h | h | ⟨o, ho, hu⟩)
    · exact Or.inl h
    · exact Or.inr (Or.inl h)
    · exact Or.inr (Or.inr ⟨o, ho, (operator_unusable_iff r o).mp hu⟩)
  · rintro (h | h | ⟨o, ho, hu⟩)
    · exact Or.inl h
    · exact Or.inr (Or.inl h)
    · exact Or.inr (Or.inr ⟨o, ho, (operator_unusable_iff r o).mpr hu⟩)

/-- Claim C20 at scenario E (operator `baz` absent from the runtime): the status is
`ERROR` and the errors are not empty. -/
theorem status_ERROR_iff_witness :
    (is_compatible scenario_E_runtime scenario_E_model).status =
        ModelCompatibilityStatus.ERROR ∧
      (is_compatible scenario_E_runtime scenario_E_model).errors ≠ [] :=
  ⟨(status_ERROR_iff scenario_E_runtime scenario_E_model).1.mpr
      (Or.inr (Or.inr ⟨("baz", { num_schema_args := some 1 }), by decide,
        Or.inl (by decide)⟩)),
    (status_ERROR_iff scenario_E_runtime scenario_E_model).2 (by decide)⟩

/-! ## Lemmas on the operator extractor -/

theorem method_section_operators (method : IValue) (items : List IValue)
    (h : method_section 1 method items) : method_operators method = Except.ok items := by
  obtain ⟨name, body, rest, tag, more, rfl, hbody⟩ := h
  rw [List.get?_eq_getElem?] at hbody
  simp [method_operators, IValue.toTupleRef, elements_at, elements_index, hbody, bind,
    Except.bind]

theorem method_section_type_table (slot : Nat) (method : IValue) (items : List IValue)
    (h : method_section slot method items) :
    method_type_table slot method = Except.ok items := by
  obtain ⟨name, body, rest, tag, more, rfl, hbody⟩ := h
  rw [List.get?_eq_getElem?] at hbody
  simp [method_type_table, IValue.toTupleRef, elements_at, elements_index, hbody, bind,
    Except.bind]

/-- The `OperatorInfo` that lines 176-181 build for a record. -/
theorem read_operator_record_toIValue (r : OperatorRecord) :
    read_operator_record r.toIValue =
      Except.ok (canonical_identifier r,
        { num_schema_args := r.schema_arg_count.map static_cast_int }) := by
  obtain ⟨name, overload, count⟩ := r
  cases count with
  | none =>
    by_cases h : overload = "" <;>
      simp [read_operator_record, OperatorRecord.toIValue, canonical_identifier,
        IValue.toTupleRef, IValue.toStringRef, elements_at, bind, Except.bind, pure,
        Except.pure, h]
  | some n =>
    by_cases h : overload = "" <;>
      simp [read_operator_record, OperatorRecord.toIValue, canonical_identifier,
        IValue.toTupleRef, IValue.toStringRef, IValue.toInt, elements_at, bind, Except.bind,
        pure, Except.pure, h]

theorem operator_records_of_map (ops : List OperatorRecord) :
    operator_records_of (ops.map OperatorRecord.toIValue) =
      Except.ok (ops.map (fun r => (canonical_identifier r,
        ({ num_schema_args := r.schema_arg_count.map static_cast_int } : OperatorInfo)))) := by
  induction ops with
  | nil => rfl
  | cons r rest ih =>
    simp [operator_records_of, read_operator_record_toIValue, ih, bind, Except.bind, pure,
      Except.pure]

theorem method_records_of_well_formed (entries : List IValue)
    (methods : List (List OperatorRecord))
    (h : List.Forall₂ (fun entry ops =>
      method_section 1 entry (ops.map OperatorRecord.toIValue)) entries methods) :
    method_records_of entries =
      Except.ok (methods.flatten.map (fun r => (canonical_identifier r,
        ({ num_schema_args := r.schema_arg_count.map static_cast_int } : OperatorInfo)))) := by
  induction h with
  | nil => rfl
  | cons hsec _ ih =>
    simp [method_records_of, method_section_operators _ _ hsec, operator_records_of_map, ih,
      bind, Except.bind, pure, Except.pure]

theorem emplace_operators_ok (operators : List IValue) :
    ∀ records, operator_records_of operators = Except.ok records →
      ∀ result, ∃ result', emplace_operators operators result = Except.ok result' := by
  induction operators with
  | nil => intro records _ result; exact ⟨result, rfl⟩
  | cons op_tuple rest ih =>
    intro records h result
    cases hrec : read_operator_record op_tuple with
    | error e => simp [operator_records_of, hrec, bind, Except.bind] at h
    | ok record =>
      cases hrest : operator_records_of rest with
      | error e => simp [operator_records_of, hrec, hrest, bind, Except.bind] at h
      | ok others =>
        obtain ⟨result', hres⟩ := ih others hrest
          (unordered_map_emplace result record.1 record.2)
        exact ⟨result', by simp [emplace_operators, hrec, hres, bind, Except.bind]⟩

theorem emplace_methods_ok (methods : List IValue) :
    ∀ records, method_records_of methods = Except.ok records →
      ∀ result, ∃ result', emplace_methods methods result = Except.ok result' := by
  induction methods with
  | nil => intro records _ result; exact ⟨result, rfl⟩
  | cons method rest ih =>
    intro records h result
    cases hops : method_operators method with
    | error e => simp [method_records_of, hops, bind, Except.bind] at h
    | ok operators =>
      cases hrec : operator_records_of operators with
      | error e => simp [method_records_of, hops, hrec, bind, Except.bind] at h
      | ok recs =>
        cases hrest : method_records_of rest with
        | error e => simp [method_records_of, hops, hrec, hrest, bind, Except.bind] at h
        | ok others =>
          obtain ⟨mid, hmid⟩ := emplace_operators_ok operators recs hrec result
          obtain ⟨result', hres⟩ := ih others hrest mid
          exact ⟨result', by simp [emplace_methods, hops, hmid, hres, bind, Except.bind]⟩

/-- On a sequence that starts with a version `≥ 1`, the extractor is the loop over the
remaining elements, with the schema warning when the version is below 6. -/
theorem get_model_ops_and_info_cons (v : Int) (entries : List IValue) (hv : 1 ≤ v) :
    _get_model_ops_and_info (IValue.mkInt v :: entries) =
      (emplace_methods entries []).map (fun result =>
        (result, if static_cast_uint64 v < min_version_with_schema
          then [schema_warning] else [])) := by
  have hpos : v > 0 := hv
  cases hm : emplace_methods entries [] with
  | error e =>
    simp [_get_model_ops_and_info, _get_model_bytecode_version, hpos, hm, bind, Except.bind,
      Except.map]
  | ok result =>
    simp [_get_model_ops_and_info, _get_model_bytecode_version, hpos, hm, bind, Except.bind,
      Except.map, pure, Except.pure]

theorem static_cast_uint64_lt (v : Int) (hv : 1 ≤ v) (h : is_int64 v) (n : Nat) :
    static_cast_uint64 v < n ↔ v < (n : Int) := by
  have := static_cast_uint64_of_pos v hv h
  omega

theorem mem_keys_iff_find (m : List (String × OperatorInfo)) (k : String) :
    k ∈ m.map Prod.fst ↔ unordered_map_find m k ≠ none := by
  rw [Ne, unordered_map_find_eq_none, not_not]

/-- On a well-formed sequence the extractor succeeds; the mapping looks identifiers up
in the traversal of the records, and the schema warning is the only possible
warning. -/
theorem get_model_ops_and_info_well_formed (bytecode_ivalues : List IValue) (v : Int)
    (methods : List (List OperatorRecord))
    (hwf : well_formed_operators bytecode_ivalues v methods) :
    ∃ result, _get_model_ops_and_info bytecode_ivalues =
        Except.ok (result, if v < 6 then [schema_warning] else []) ∧
      ∀ id, unordered_map_find result id =
        unordered_map_find (methods.flatten.map (fun r => (canonical_identifier r,
          ({ num_schema_args := r.schema_arg_count.map static_cast_int } : OperatorInfo)))) id := by
  obtain ⟨hv, hrange, entries, rfl, hshape⟩ := hwf
  have hrecords := method_records_of_well_formed entries methods hshape
  obtain ⟨result, hres⟩ := emplace_methods_ok entries _ hrecords []
  refine ⟨result, ?_, ?_⟩
  · rw [get_model_ops_and_info_cons v entries hv, hres]
    have hlt := static_cast_uint64_lt v hv hrange min_version_with_schema
    by_cases h6 : v < 6
    · have h6' : static_cast_uint64 v < min_version_with_schema := hlt.mpr h6
      simp [Except.map, h6, h6']
    · have h6' : ¬ static_cast_uint64 v < min_version_with_schema := fun hc => h6 (hlt.mp hc)
      simp [Except.map, h6, h6']
  · intro id
    obtain ⟨records, hrecords2, hfind⟩ := emplace_methods_find entries _ _ hres
    rw [hrecords] at hrecords2
    rw [hfind id, ← Except.ok.inj hrecords2]
    simp [unordered_map_find]

theorem unordered_map_find_unique (records : List OperatorRecord) (r : OperatorRecord)
    (hr : r ∈ records)
    (honce : (records.map canonical_identifier).count (canonical_identifier r) = 1) :
    unordered_map_find (records.map (fun r => (canonical_identifier r,
        ({ num_schema_args := r.schema_arg_count.map static_cast_int } : OperatorInfo))))
      (canonical_identifier r) =
      some { num_schema_args := r.schema_arg_count.map static_cast_int } := by
  induction records with
  | nil => simp at hr
  | cons x rest ih =>
    by_cases hx : canonical_identifier x = canonical_identifier r
    · have hzero : (rest.map canonical_identifier).count (canonical_identifier r) = 0 := by
        simp only [List.map_cons, List.count_cons, hx, beq_self_eq_true, if_true] at honce
        omega
      have hnot : r ∉ rest := by
        intro hmem
        exact (List.count_eq_zero.mp hzero) (List.mem_map_of_mem canonical_identifier hmem)
      have hrx : r = x := by
        rcases List.mem_cons.mp hr with h | h
        · exact h
        · exact absurd h hnot
      subst hrx
      simp [unordered_map_find]
    · have hmem : r ∈ rest := by
        rcases List.mem_cons.mp hr with h | h
        · exact absurd (h ▸ rfl) hx
        · exact h
      have hone : (rest.map canonical_identifier).count (canonical_identifier r) = 1 := by
        simpa [List.count_cons, hx] using honce
      simp only [List.map_cons, unordered_map_find, hx, if_false]
      exact ih hmem hone

theorem read_two_field_record (a b : IValue) (record : String × OperatorInfo)
    (h : read_operator_record (IValue.mkTuple [a, b]) = Except.ok record) :
    record.2.num_schema_args = none := by
  cases a with
  | mkString name =>
    cases b with
    | mkString overload =>
      simp only [read_operator_record, IValue.toTupleRef, IValue.toStringRef, elements_at,
        bind, Except.bind, pure, Except.pure, List.get?, List.length_cons, List.length_nil,
        Nat.reduceAdd, gt_iff_lt, lt_self_iff_false, if_false, Except.ok.injEq] at h
      rw [← h]
    | mkNone => simp [read_operator_record, IValue.toTupleRef, IValue.toStringRef,
        elements_at, bind, Except.bind] at h
    | mkInt i => simp [read_operator_record, IValue.toTupleRef, IValue.toStringRef,
        elements_at, bind, Except.bind] at h
    | mkTuple l => simp [read_operator_record, IValue.toTupleRef, IValue.toStringRef,
        elements_at, bind, Except.bind] at h
    | mkOther t => simp [read_operator_record, IValue.toTupleRef, IValue.toStringRef,
        elements_at, bind, Except.bind] at h
  | mkNone => simp [read_operator_record, IValue.toTupleRef, IValue.toStringRef,
      elements_at, bind, Except.bind] at h
  | mkInt i => simp [read_operator_record, IValue.toTupleRef, IValue.toStringRef,
      elements_at, bind, Except.bind] at h
  | mkTuple l => simp [read_operator_record, IValue.toTupleRef, IValue.toStringRef,
      elements_at, bind, Except.bind] at h
  | mkOther t => simp [read_operator_record, IValue.toTupleRef, IValue.toStringRef,
      elements_at, bind, Except.bind] at h

theorem unordered_map_emplace_mem (m : List (String × OperatorInfo)) (k : String)
    (v : OperatorInfo) (e : String × OperatorInfo) (he : e ∈ unordered_map_emplace m k v) :
    e ∈ m ∨ e = (k, v) := by
  unfold unordered_map_emplace at he
  cases hf : unordered_map_find m k with
  | none =>
    rw [hf] at he
    simpa using he
  | some x =>
    rw [hf] at he
    exact Or.inl he

theorem emplace_operators_two_fields (operators : List IValue)
    (htwo : ∀ raw ∈ operators, ∃ a b, raw = IValue.mkTuple [a, b]) :
    ∀ result result', (∀ e ∈ result, e.2.num_schema_args = none) →
      emplace_operators operators result = Except.ok result' →
      ∀ e ∈ result', e.2.num_schema_args = none := by
  induction operators with
  | nil =>
    intro result result' hall h
    simp only [emplace_operators, Except.ok.injEq] at h
    rw [← h]
    exact hall
  | cons op_tuple rest ih =>
    intro result result' hall h
    cases hrec : read_operator_record op_tuple with
    | error e => simp [emplace_operators, hrec, bind, Except.bind] at h
    | ok record =>
      simp only [emplace_operators, hrec, bind, Except.bind] at h
      obtain ⟨a, b, hab⟩ := htwo op_tuple (List.mem_cons_self _ _)
      have hnone : record.2.num_schema_args = none :=
        read_two_field_record a b record (hab ▸ hrec)
      refine ih (fun raw hraw => htwo raw (List.mem_cons_of_mem _ hraw)) _ _ ?_ h
      intro e he
      rcases unordered_map_emplace_mem _ _ _ e he with h1 | h2
      · exact hall e h1
      · rw [h2]
        exact hnone

theorem emplace_methods_two_fields (entries : List IValue) (raws : List (List IValue))
    (hshape : List.Forall₂ (fun entry rs => method_section 1 entry rs) entries raws)
    (htwo : ∀ rs ∈ raws, ∀ raw ∈ rs, ∃ a b, raw = IValue.mkTuple [a, b]) :
    ∀ result result', (∀ e ∈ result, e.2.num_schema_args = none) →
      emplace_methods entries result = Except.ok result' →
      ∀ e ∈ result', e.2.num_schema_args = none := by
  induction hshape with
  | nil =>
    intro result result' hall h
    simp only [emplace_methods, Except.ok.injEq] at h
    rw [← h]
    exact hall
  | @cons entry rs entries' raws' hsec _ ih =>
    intro result result' hall h
    have hops := method_section_operators entry rs hsec
    cases hmid : emplace_operators rs result with
    | error e => simp [emplace_methods, hops, hmid, bind, Except.bind] at h
    | ok mid =>
      simp only [emplace_methods, hops, hmid, bind, Except.bind] at h
      exact ih (fun rs' hrs' => htwo rs' (List.mem_cons_of_mem _ hrs')) _ _
        (emplace_operators_two_fields rs (htwo rs (List.mem_cons_self _ _)) _ _ hall hmid) h

/-! ## Operator extractor: empty, legacy and well-formed sequences -/

/-- Claim C11, evaluated on the empty sequence: `_get_model_ops_and_info` fails with
the message of `_get_model_bytecode_version`, which line 150 calls before the
emptiness test of line 155; the branch that would return the empty mapping with the
warning of line 156 is never reached. -/
theorem get_model_ops_and_info_empty :
    _get_model_ops_and_info [] = Except.error "Failed to get bytecode version." ∧
      _get_model_ops_and_info [] ≠ Except.ok ([], [ops_warning]) := by
  decide

/-- Claim C12 fails as stated: `legacy_bytecode` has version 5, extraction succeeds,
and the `OperatorInfo` of `aten::add.Tensor` holds 2 schema arguments, read from the
third field of its record. -/
theorem legacy_record_keeps_schema :
    _get_model_bytecode_version legacy_bytecode = Except.ok 5 ∧
    _get_model_ops_and_info legacy_bytecode =
      Except.ok ([("aten::add.Tensor", { num_schema_args := some 2 })], [schema_warning]) ∧
    (∃ e ∈ [("aten::add.Tensor", ({ num_schema_args := some 2 } : OperatorInfo))],
      e.2.num_schema_args ≠ none) := by
  decide

/-- Claim C12, amended: for every sequence whose element 0 is an integer version `v`
with `1 ≤ v < 6`, all of whose operator records have exactly two fields and on which
`_get_model_ops_and_info` succeeds, every `OperatorInfo` of the returned mapping has
`num_schema_args` absent; the version adds the schema warning and nothing else: with
any other version `≥ 1` in element 0 the extractor succeeds with the same mapping. -/
theorem legacy_two_field_records (bytecode_ivalues : List IValue) (v : Int)
    (entries : List IValue) (raws : List (List IValue))
    (result : List (String × OperatorInfo)) (warnings : List String)
    (hseq : bytecode_ivalues = IValue.mkInt v :: entries)
    (hv : 1 ≤ v) (hlt : v < 6)
    (hshape : List.Forall₂ (fun entry rs => method_section 1 entry rs) entries raws)
    (htwo : ∀ rs ∈ raws, ∀ raw ∈ rs, ∃ a b, raw = IValue.mkTuple [a, b])
    (h : _get_model_ops_and_info bytecode_ivalues = Except.ok (result, warnings)) :
    (∀ e ∈ result, e.2.num_schema_args = none) ∧
    warnings = [schema_warning] ∧
    (∀ v', 1 ≤ v' → ∃ warnings',
      _get_model_ops_and_info (IValue.mkInt v' :: entries) = Except.ok (result, warnings')) := by
  subst hseq
  rw [get_model_ops_and_info_cons v entries hv] at h
  cases hm : emplace_methods entries [] with
  | error e => simp [hm, Except.map] at h
  | ok res =>
    have hrange : is_int64 v := ⟨by omega, by omega⟩
    have h6 : static_cast_uint64 v < min_version_with_schema :=
      (static_cast_uint64_lt v hv hrange min_version_with_schema).mpr hlt
    simp only [hm, Except.map, h6, if_true, Except.ok.injEq, Prod.mk.injEq] at h
    obtain ⟨hres, hwarn⟩ := h
    subst hres
    refine ⟨?_, hwarn.symm, ?_⟩
    · exact emplace_methods_two_fields entries raws hshape htwo [] res
        (fun e he => absurd he (List.not_mem_nil e)) hm
    · intro v' hv'
      exact ⟨_, by rw [get_model_ops_and_info_cons v' entries hv', hm]; rfl⟩

/-- Claim C12, amended, at `legacy_two_field_bytecode` (version 5, one record
`[aten::add, Tensor]`): the stored `OperatorInfo` has no schema size and the schema
warning is emitted. -/
theorem legacy_two_field_records_witness :
    (∀ e ∈ [("aten::add.Tensor", ({ num_schema_args := none } : OperatorInfo))],
      e.2.num_schema_args = none) ∧
    [schema_warning] = [schema_warning] ∧
    (∀ v', 1 ≤ v' → ∃ warnings',
      _get_model_ops_and_info (IValue.mkInt v' :: legacy_two_field_bytecode.drop 1) =
        Except.ok ([("aten::add.Tensor", { num_schema_args := none })], warnings')) :=
  legacy_two_field_records legacy_two_field_bytecode 5 (legacy_two_field_bytecode.drop 1)
    [[IValue.mkTuple [IValue.mkString "aten::add", IValue.mkString "Tensor"]]]
    [("aten::add.Tensor", { num_schema_args := none })] [schema_warning] rfl (by decide)
    (by decide)
    (List.Forall₂.cons ⟨_, _, _, _, _, rfl, rfl⟩ List.Forall₂.nil)
    (by
      intro rs hrs raw hraw
      rw [List.mem_singleton] at hrs
      subst hrs
      rw [List.mem_singleton] at hraw
      exact ⟨_, _, hraw⟩)
    (by decide)

/-- Claim C13 fails as stated: on `[7]` the operator extractor returns the empty
mapping and emits no warning. -/
theorem version_only_no_warning :
    _get_model_ops_and_info [IValue.mkInt 7] = Except.ok ([], []) := by
  decide

/-- Claim C13, amended: for every `int64_t` version `v ≥ 1`, on the one-element
sequence `[v]` the operator extractor returns the empty mapping, warning (with the
schema warning) exactly when `v < 6`, and the type extractor returns the empty set,
whatever the slot of the type table and the token parser; neither fails. -/
theorem version_only_sequence (v : Int) (hv : 1 ≤ v) (hrange : is_int64 v)
    (BYTECODE_INDEX_TYPE : Nat) (parse : String → Except String (List String)) :
    _get_model_ops_and_info [IValue.mkInt v] =
        Except.ok ([], if v < 6 then [schema_warning] else []) ∧
    _get_mobile_model_contained_types BYTECODE_INDEX_TYPE parse [IValue.mkInt v] =
        Except.ok [] := by
  constructor
  · rw [get_model_ops_and_info_cons v [] hv]
    have hlt := static_cast_uint64_lt v hv hrange min_version_with_schema
    by_cases h6 : v < 6
    · have h6' : static_cast_uint64 v < min_version_with_schema := hlt.mpr h6
      simp [emplace_methods, Except.map, h6, h6']
    · have h6' : ¬ static_cast_uint64 v < min_version_with_schema := fun hc => h6 (hlt.mp hc)
      simp [emplace_methods, Except.map, h6, h6']
  · rfl

/-- Claim C13, amended, at `[5]` (warning) and `[7]` (no warning). -/
theorem version_only_sequence_witness :
    (_get_model_ops_and_info [IValue.mkInt 5] = Except.ok ([], [schema_warning]) ∧
      _get_mobile_model_contained_types 3 sample_parse [IValue.mkInt 5] = Except.ok []) ∧
    (_get_model_ops_and_info [IValue.mkInt 7] = Except.ok ([], []) ∧
      _get_mobile_model_contained_types 3 sample_parse [IValue.mkInt 7] = Except.ok []) :=
  ⟨version_only_sequence 5 (by decide) (by decide) 3 sample_parse,
    version_only_sequence 7 (by decide) (by decide) 3 sample_parse⟩

/-- Claim C15: on every well-formed bytecode sequence with a valid version,
`_get_model_ops_and_info` succeeds and the keys of the returned mapping are exactly
the canonical identifiers of the operator records of the method entries at indices
1..end, the canonical identifier of a record being its name when the overload name is
empty and `name ++ "." ++ overload_name` otherwise. -/
theorem operator_keys (bytecode_ivalues : List IValue) (v : Int)
    (methods : List (List OperatorRecord))
    (hwf : well_formed_operators bytecode_ivalues v methods) :
    ∃ result warnings, _get_model_ops_and_info bytecode_ivalues = Except.ok (result, warnings) ∧
      ∀ id, id ∈ result.map Prod.fst ↔
        ∃ ops ∈ methods, ∃ r ∈ ops,
          id = if r.overload_name = "" then r.name else r.name ++ "." ++ r.overload_name := by
  obtain ⟨result, hres, hfind⟩ := get_model_ops_and_info_well_formed _ _ _ hwf
  refine ⟨result, _, hres, ?_⟩
  intro id
  rw [mem_keys_iff_find, hfind id, ← mem_keys_iff_find]
  simp only [List.map_map, List.mem_map, List.mem_flatten, Function.comp]
  constructor
  · rintro ⟨r, ⟨ops, hops, hr⟩, rfl⟩
    exact ⟨ops, hops, r, hr, rfl⟩
  · rintro ⟨ops, hops, r, hr, rfl⟩
    exact ⟨r, ⟨ops, hops, hr⟩, rfl⟩

/-- Claim C15 at `sample_bytecode`: records `aten::add`/`Tensor`, `aten::add`/`""` and
`aten::mul`/`Scalar` in two methods. -/
theorem operator_keys_witness :
    ∃ result warnings, _get_model_ops_and_info sample_bytecode = Except.ok (result, warnings) ∧
      ∀ id, id ∈ result.map Prod.fst ↔
        ∃ ops ∈ sample_methods, ∃ r ∈ ops,
          id = if r.overload_name = "" then r.name else r.name ++ "." ++ r.overload_name :=
  operator_keys sample_bytecode 7 sample_methods
    ⟨by decide, by decide, _, rfl,
      List.Forall₂.cons ⟨_, _, _, _, _, rfl, rfl⟩
        (List.Forall₂.cons ⟨_, _, _, _, _, rfl, rfl⟩ List.Forall₂.nil)⟩

/-- Claim C16 fails as stated: the record of `wide_count_bytecode` has the third field
`4294967298`, an `int64_t`, its identifier occurs once, and the `OperatorInfo` stored
under it holds `2`, the value of the cast to `int`. -/
theorem wide_count_truncated :
    wide_count_bytecode = [IValue.mkInt 7, method_entry "forward"
      [OperatorRecord.toIValue
        { name := "aten::add", overload_name := "Tensor", schema_arg_count := some 4294967298 }]
      []] ∧
    is_int64 4294967298 ∧
    _get_model_ops_and_info wide_count_bytecode =
      Except.ok ([("aten::add.Tensor", { num_schema_args := some 2 })], []) ∧
    unordered_map_find [("aten::add.Tensor", { num_schema_args := some 2 })]
      "aten::add.Tensor" ≠ some { num_schema_args := some 4294967298 } :=
  ⟨rfl, by decide, by decide, by decide⟩

theorem read_operator_record_fields (r : OperatorFields) (hwf : r.well_formed) :
    read_operator_record r.toIValue = Except.ok (r.identifier, r.info) := by
  obtain ⟨name, overload, more⟩ := r
  rcases hwf with h | ⟨n, rest, h⟩
  · simp only at h
    subst h
    by_cases ho : overload = "" <;>
      simp [read_operator_record, OperatorFields.toIValue, OperatorFields.identifier,
        OperatorFields.info, IValue.toTupleRef, IValue.toStringRef, elements_at, bind,
        Except.bind, pure, Except.pure, ho]
  · simp only at h
    subst h
    by_cases ho : overload = "" <;>
      simp [read_operator_record, OperatorFields.toIValue, OperatorFields.identifier,
        OperatorFields.info, IValue.toTupleRef, IValue.toStringRef, IValue.toInt,
        elements_at, bind, Except.bind, pure, Except.pure, ho]

theorem operator_records_of_fields (ops : List OperatorFields)
    (hwf : ∀ r ∈ ops, OperatorFields.well_formed r) :
    operator_records_of (ops.map OperatorFields.toIValue) =
      Except.ok (ops.map (fun r => (r.identifier, r.info))) := by
  induction ops with
  | nil => rfl
  | cons r rest ih =>
    have hr := read_operator_record_fields r (hwf r (List.mem_cons_self _ _))
    have hrest := ih (fun x hx => hwf x (List.mem_cons_of_mem _ hx))
    simp [operator_records_of, hr, hrest, bind, Except.bind, pure, Except.pure]

theorem method_records_of_fields (entries : List IValue)
    (methods : List (List OperatorFields))
    (h : List.Forall₂ (fun entry ops =>
      method_section 1 entry (ops.map OperatorFields.toIValue)) entries methods)
    (hwf : ∀ ops ∈ methods, ∀ r ∈ ops, OperatorFields.well_formed r) :
    method_records_of entries =
      Except.ok (methods.flatten.map (fun r => (r.identifier, r.info))) := by
  induction h with
  | nil => rfl
  | @cons entry ops entries' methods' hsec _ ih =>
    have hops := operator_records_of_fields ops (hwf ops (List.mem_cons_self _ _))
    have hrest := ih (fun x hx => hwf x (List.mem_cons_of_mem _ hx))
    simp [method_records_of, method_section_operators _ _ hsec, hops, hrest, bind,
      Except.bind, pure, Except.pure]

/-- On a sequence that is well-formed with records of any size, the extractor succeeds
and the mapping looks identifiers up in the traversal of the records. -/
theorem get_model_ops_and_info_fields (bytecode_ivalues : List IValue) (v : Int)
    (methods : List (List OperatorFields))
    (hwf : well_formed_records bytecode_ivalues v methods) :
    ∃ result, _get_model_ops_and_info bytecode_ivalues =
        Except.ok (result, if v < 6 then [schema_warning] else []) ∧
      ∀ id, unordered_map_find result id =
        unordered_map_find (methods.flatten.map (fun r => (r.identifier, r.info))) id := by
  obtain ⟨hv, hrange, hrec, entries, rfl, hshape⟩ := hwf
  have hrecords := method_records_of_fields entries methods hshape hrec
  obtain ⟨result, hres⟩ := emplace_methods_ok entries _ hrecords []
  refine ⟨result, ?_, ?_⟩
  · rw [get_model_ops_and_info_cons v entries hv, hres]
    have hlt := static_cast_uint64_lt v hv hrange min_version_with_schema
    by_cases h6 : v < 6
    · have h6' : static_cast_uint64 v < min_version_with_schema := hlt.mpr h6
      simp [Except.map, h6, h6']
    · have h6' : ¬ static_cast_uint64 v < min_version_with_schema := fun hc => h6 (hlt.mp hc)
      simp [Except.map, h6, h6']
  · intro id
    obtain ⟨records, hrecords2, hfind⟩ := emplace_methods_find entries _ _ hres
    rw [hrecords] at hrecords2
    rw [hfind id, ← Except.ok.inj hrecords2]
    simp [unordered_map_find]

theorem unordered_map_find_once (records : List OperatorFields) (r : OperatorFields)
    (hr : r ∈ records)
    (honce : (records.map OperatorFields.identifier).count r.identifier = 1) :
    unordered_map_find (records.map (fun r => (r.identifier, r.info))) r.identifier =
      some r.info := by
  induction records with
  | nil => simp at hr
  | cons x rest ih =>
    by_cases hx : x.identifier = r.identifier
    · have hzero : (rest.map OperatorFields.identifier).count r.identifier = 0 := by
        simp only [List.map_cons, List.count_cons, hx, beq_self_eq_true, if_true] at honce
        omega
      have hnot : r ∉ rest := by
        intro hmem
        exact (List.count_eq_zero.mp hzero)
          (List.mem_map_of_mem OperatorFields.identifier hmem)
      have hrx : r = x := by
        rcases List.mem_cons.mp hr with h | h
        · exact h
        · exact absurd h hnot
      subst hrx
      simp [unordered_map_find]
    · have hmem : r ∈ rest := by
        rcases List.mem_cons.mp hr with h | h
        · exact absurd (h ▸ rfl) hx
        · exact h
      have hone : (rest.map OperatorFields.identifier).count r.identifier = 1 := by
        simpa [List.count_cons, hx] using honce
      simp only [List.map_cons, unordered_map_find, hx, if_false]
      exact ih hmem hone

/-- Claim C16, amended: on every well-formed bytecode sequence with a valid version
(records `[name, overload_name, more...]` of any size, the third field an integer when
present), for every operator record whose canonical identifier occurs only once, the
extractor succeeds and the `OperatorInfo` stored under that identifier has
`num_schema_args` equal to `(int) n`, the third field `n` wrapped to 32 bits (so equal
to `n` itself when `-2^31 ≤ n < 2^31`), when the record has more than two fields, and
absent when the record has exactly two fields. -/
theorem stored_schema_args (bytecode_ivalues : List IValue) (v : Int)
    (methods : List (List OperatorFields))
    (hwf : well_formed_records bytecode_ivalues v methods)
    (ops : List OperatorFields) (hops : ops ∈ methods)
    (r : OperatorFields) (hr : r ∈ ops)
    (honce : (methods.flatten.map OperatorFields.identifier).count r.identifier = 1) :
    ∃ result warnings, _get_model_ops_and_info bytecode_ivalues = Except.ok (result, warnings) ∧
      (∀ n rest, r.toIValue = IValue.mkTuple (IValue.mkString r.name ::
          IValue.mkString r.overload_name :: IValue.mkInt n :: rest) →
        unordered_map_find result
            (if r.overload_name = "" then r.name else r.name ++ "." ++ r.overload_name) =
            some { num_schema_args := some ((n + 2 ^ 31) % 2 ^ 32 - 2 ^ 31) } ∧
          (-(2 ^ 31) ≤ n → n < 2 ^ 31 →
            unordered_map_find result
              (if r.overload_name = "" then r.name else r.name ++ "." ++ r.overload_name) =
              some { num_schema_args := some n })) ∧
      (r.toIValue = IValue.mkTuple [IValue.mkString r.name, IValue.mkString r.overload_name] →
        unordered_map_find result
          (if r.overload_name = "" then r.name else r.name ++ "." ++ r.overload_name) =
          some { num_schema_args := none }) := by
  obtain ⟨result, hres, hfind⟩ := get_model_ops_and_info_fields _ _ _ hwf
  have hmem : r ∈ methods.flatten := List.mem_flatten.mpr ⟨ops, hops, hr⟩
  have hstored := unordered_map_find_once methods.flatten r hmem honce
  rw [← hfind] at hstored
  refine ⟨result, _, hres, ?_, ?_⟩
  · intro n rest hn
    have hmore : r.more = IValue.mkInt n :: rest := by
      simpa [OperatorFields.toIValue] using hn
    have hinfo : r.info = { num_schema_args := some (static_cast_int n) } := by
      simp [OperatorFields.info, hmore]
    rw [hinfo] at hstored
    refine ⟨hstored, ?_⟩
    intro hlo hhi
    have hcast : static_cast_int n = n := by
      unfold static_cast_int
      rw [Int.emod_eq_of_lt (by omega) (by omega)]
      omega
    rw [hcast] at hstored
    exact hstored
  · intro hn
    have hmore : r.more = [] := by
      simpa [OperatorFields.toIValue] using hn
    have hinfo : r.info = { num_schema_args := none } := by
      simp [OperatorFields.info, hmore]
    rw [hinfo] at hstored
    exact hstored

/-- Claim C16, amended, at `mixed_arity_bytecode`: `aten::add.Tensor` (four fields,
third field 2) stores 2, `aten::div.Scalar` (three fields, third field 3) stores 3,
and `aten::mul` (two fields) stores no schema size. -/
theorem stored_schema_args_witness :
    (∃ result warnings,
      _get_model_ops_and_info mixed_arity_bytecode = Except.ok (result, warnings) ∧
      unordered_map_find result "aten::add.Tensor" = some { num_schema_args := some 2 }) ∧
    (∃ result warnings,
      _get_model_ops_and_info mixed_arity_bytecode = Except.ok (result, warnings) ∧
      unordered_map_find result "aten::div.Scalar" = some { num_schema_args := some 3 }) ∧
    (∃ result warnings,
      _get_model_ops_and_info mixed_arity_bytecode = Except.ok (result, warnings) ∧
      unordered_map_find result "aten::mul" = some { num_schema_args := none }) := by
  have hwf : well_formed_records mixed_arity_bytecode 7
      [[add_fields, mul_fields, div_fields]] := by
    refine ⟨by decide, by decide, ?_, _, rfl,
      List.Forall₂.cons ⟨_, _, _, _, _, rfl, rfl⟩ List.Forall₂.nil⟩
    intro ops hops r hr
    rw [List.mem_singleton] at hops
    subst hops
    rcases List.mem_cons.mp hr with h | h
    · subst h
      exact Or.inr ⟨2, _, rfl⟩
    · rcases List.mem_cons.mp h with h | h
      · subst h
        exact Or.inl rfl
      · rw [List.mem_singleton] at h
        subst h
        exact Or.inr ⟨3, _, rfl⟩
  have hops : [add_fields, mul_fields, div_fields] ∈ [[add_fields, mul_fields, div_fields]] :=
    List.mem_singleton.mpr rfl
  refine ⟨?_, ?_, ?_⟩
  · obtain ⟨result, warnings, hres, hsome, -⟩ := stored_schema_args mixed_arity_bytecode 7
      [[add_fields, mul_fields, div_fields]] hwf _ hops add_fields
      (List.mem_cons_self _ _) (by decide)
    exact ⟨result, warnings, hres, (hsome 2 _ rfl).2 (by decide) (by decide)⟩
  · obtain ⟨result, warnings, hres, hsome, -⟩ := stored_schema_args mixed_arity_bytecode 7
      [[add_fields, mul_fields, div_fields]] hwf _ hops div_fields
      (List.mem_cons_of_mem _ (List.mem_cons_of_mem _ (List.mem_cons_self _ _))) (by decide)
    exact ⟨result, warnings, hres, (hsome 3 _ rfl).2 (by decide) (by decide)⟩
  · obtain ⟨result, warnings, hres, -, hnone⟩ := stored_schema_args mixed_arity_bytecode 7
      [[add_fields, mul_fields, div_fields]] hwf _ hops mul_fields
      (List.mem_cons_of_mem _ (List.mem_cons_self _ _)) (by decide)
    exact ⟨result, warnings, hres, hnone rfl⟩

/-! ## Type table extractor -/

theorem mem_unordered_set_insert (s : List String) (x t : String) :
    t ∈ unordered_set_insert s x ↔ t ∈ s ∨ t = x := by
  unfold unordered_set_insert
  by_cases h : x ∈ s
  · simp only [h, if_true]
    constructor
    · exact Or.inl
    · rintro (h1 | h2)
      · exact h1
      · exact h2 ▸ h
  · simp [h]

theorem nodup_unordered_set_insert (s : List String) (x : String) (hs : s.Nodup) :
    (unordered_set_insert s x).Nodup := by
  unfold unordered_set_insert
  by_cases h : x ∈ s
  · simpa [h] using hs
  · simp only [h, if_false]
    rw [List.nodup_append]
    refine ⟨hs, List.nodup_singleton x, ?_⟩
    intro a ha hb
    rw [List.mem_singleton] at hb
    exact h (hb ▸ ha)

theorem mem_unordered_set_insert_all (xs : List String) :
    ∀ (s : List String) (t : String), t ∈ unordered_set_insert_all s xs ↔ t ∈ s ∨ t ∈ xs := by
  induction xs with
  | nil => intro s t; simp [unordered_set_insert_all]
  | cons x rest ih =>
    intro s t
    have hstep : unordered_set_insert_all s (x :: rest) =
        unordered_set_insert_all (unordered_set_insert s x) rest := rfl
    rw [hstep, ih, mem_unordered_set_insert, List.mem_cons, or_assoc]

theorem nodup_unordered_set_insert_all (xs : List String) :
    ∀ s : List String, s.Nodup → (unordered_set_insert_all s xs).Nodup := by
  induction xs with
  | nil => intro s hs; exact hs
  | cons x rest ih =>
    intro s hs
    exact ih _ (nodup_unordered_set_insert s x hs)

theorem union_of_tokens_mem (parse : String → Except String (List String))
    (signatures : List String) :
    ∀ all, union_of_tokens parse signatures = Except.ok all →
      ∀ t, t ∈ all ↔ ∃ sig ∈ signatures, ∃ tokens, parse sig = Except.ok tokens ∧ t ∈ tokens := by
  induction signatures with
  | nil =>
    intro all h t
    simp only [union_of_tokens, Except.ok.injEq] at h
    subst h
    simp
  | cons sig rest ih =>
    intro all h t
    cases hp : parse sig with
    | error e => simp [union_of_tokens, hp, bind, Except.bind] at h
    | ok tokens =>
      cases hr : union_of_tokens parse rest with
      | error e => simp [union_of_tokens, hp, hr, bind, Except.bind] at h
      | ok others =>
        simp only [union_of_tokens, hp, hr, bind, Except.bind, pure, Except.pure,
          Except.ok.injEq] at h
        subst h
        rw [List.mem_append, ih others hr t]
        constructor
        · rintro (h1 | ⟨sig', hs', toks', hp', ht'⟩)
          · exact ⟨sig, List.mem_cons_self _ _, tokens, hp, h1⟩
          · exact ⟨sig', List.mem_cons_of_mem _ hs', toks', hp', ht'⟩
        · rintro ⟨sig', hs', toks', hp', ht'⟩
          rcases List.mem_cons.mp hs' with h1 | h2
          · subst h1
            rw [hp] at hp'
            exact Or.inl ((Except.ok.inj hp') ▸ ht')
          · exact Or.inr ⟨sig', h2, toks', hp', ht'⟩

theorem union_of_tokens_append (parse : String → Except String (List String))
    (a b : List String) :
    ∀ all, union_of_tokens parse (a ++ b) = Except.ok all →
      ∃ x y, union_of_tokens parse a = Except.ok x ∧ union_of_tokens parse b = Except.ok y ∧
        all = x ++ y := by
  induction a with
  | nil => intro all h; exact ⟨[], all, rfl, h, rfl⟩
  | cons sig rest ih =>
    intro all h
    cases hp : parse sig with
    | error e => simp [union_of_tokens, hp, bind, Except.bind] at h
    | ok tokens =>
      cases hr : union_of_tokens parse (rest ++ b) with
      | error e =>
        have h' : union_of_tokens parse (sig :: (rest ++ b)) = Except.ok all := h
        simp [union_of_tokens, hp, hr, bind, Except.bind] at h'
      | ok others =>
        have h' : union_of_tokens parse (sig :: (rest ++ b)) = Except.ok all := h
        simp only [union_of_tokens, hp, hr, bind, Except.bind, pure, Except.pure,
          Except.ok.injEq] at h'
        obtain ⟨x, y, hx, hy, hxy⟩ := ih others hr
        refine ⟨tokens ++ x, y, ?_, hy, ?_⟩
        · simp [union_of_tokens, hp, hx, bind, Except.bind, pure, Except.pure]
        · rw [← h', hxy, List.append_assoc]

/-- The loop over one type table: if every signature parses, the loop succeeds, adds
exactly the tokens of the signatures to `contained_types`, and keeps the record of
parsed signatures truthful (every recorded signature parses and its tokens are
contained). -/
theorem read_type_table_spec (parse : String → Except String (List String))
    (signatures : List String) :
    ∀ (all : List String) (state : List String × List String),
      union_of_tokens parse signatures = Except.ok all →
      (∀ sig ∈ state.2, ∃ tokens, parse sig = Except.ok tokens ∧ ∀ t ∈ tokens, t ∈ state.1) →
      ∃ state', read_type_table parse (signatures.map IValue.mkString) state =
          Except.ok state' ∧
        (∀ sig ∈ state'.2, ∃ tokens, parse sig = Except.ok tokens ∧
          ∀ t ∈ tokens, t ∈ state'.1) ∧
        (∀ t, t ∈ state'.1 ↔ t ∈ state.1 ∨ t ∈ all) ∧
        (state.1.Nodup → state'.1.Nodup) := by
  induction signatures with
  | nil =>
    intro all state h hinv
    simp only [union_of_tokens, Except.ok.injEq] at h
    subst h
    exact ⟨state, rfl, hinv, fun t => by simp, fun hn => hn⟩
  | cons sig rest ih =>
    intro all state h hinv
    cases hp : parse sig with
    | error e => simp [union_of_tokens, hp, bind, Except.bind] at h
    | ok tokens =>
      cases hr : union_of_tokens parse rest with
      | error e => simp [union_of_tokens, hp, hr, bind, Except.bind] at h
      | ok others =>
        simp only [union_of_tokens, hp, hr, bind, Except.bind, pure, Except.pure,
          Except.ok.injEq] at h
        subst h
        by_cases hseen : sig ∈ state.2
        · obtain ⟨state', hres, hinv', hmem, hnd⟩ := ih others state hr hinv
          refine ⟨state', ?_, hinv', ?_, hnd⟩
          · simp [read_type_table, IValue.toStringRef, hseen, hres, bind, Except.bind]
          · intro t
            rw [hmem t, List.mem_append]
            obtain ⟨toks, hp2, hsub⟩ := hinv sig hseen
            rw [hp] at hp2
            have htoks : tokens = toks := Except.ok.inj hp2
            subst htoks
            constructor
            · rintro (h1 | h2)
              · exact Or.inl h1
              · exact Or.inr (Or.inr h2)
            · rintro (h1 | h2 | h3)
              · exact Or.inl h1
              · exact Or.inl (hsub t h2)
              · exact Or.inr h3
        · have hinv2 : ∀ sig' ∈ (unordered_set_insert_all state.1 tokens,
              unordered_set_insert state.2 sig).2, ∃ toks, parse sig' = Except.ok toks ∧
              ∀ t ∈ toks, t ∈ (unordered_set_insert_all state.1 tokens,
                unordered_set_insert state.2 sig).1 := by
            intro sig' hs'
            rcases (mem_unordered_set_insert _ _ _).mp hs' with h1 | h2
            · obtain ⟨toks, hp2, hsub⟩ := hinv sig' h1
              exact ⟨toks, hp2, fun t ht =>
                (mem_unordered_set_insert_all tokens _ t).mpr (Or.inl (hsub t ht))⟩
            · subst h2
              exact ⟨tokens, hp, fun t ht =>
                (mem_unordered_set_insert_all tokens _ t).mpr (Or.inr ht)⟩
          obtain ⟨state', hres, hinv', hmem, hnd⟩ := ih others _ hr hinv2
          refine ⟨state', ?_, hinv', ?_, ?_⟩
          · simp [read_type_table, IValue.toStringRef, hseen, hp, hres, bind, Except.bind]
          · intro t
            rw [hmem t, List.mem_append]
            simp only [mem_unordered_set_insert_all]
            exact or_assoc
          · intro hn
            exact hnd (nodup_unordered_set_insert_all tokens _ hn)

theorem read_type_tables_spec (slot : Nat) (parse : String → Except String (List String))
    (entries : List IValue) (tables : List (List String))
    (hshape : List.Forall₂ (fun entry table =>
      method_section slot entry (table.map IValue.mkString)) entries tables) :
    ∀ (all : List String) (state : List String × List String),
      union_of_tokens parse tables.flatten = Except.ok all →
      (∀ sig ∈ state.2, ∃ tokens, parse sig = Except.ok tokens ∧ ∀ t ∈ tokens, t ∈ state.1) →
      ∃ state', read_type_tables slot parse entries state = Except.ok state' ∧
        (∀ sig ∈ state'.2, ∃ tokens, parse sig = Except.ok tokens ∧
          ∀ t ∈ tokens, t ∈ state'.1) ∧
        (∀ t, t ∈ state'.1 ↔ t ∈ state.1 ∨ t ∈ all) ∧
        (state.1.Nodup → state'.1.Nodup) := by
  induction hshape with
  | nil =>
    intro all state h hinv
    simp only [List.flatten_nil, union_of_tokens, Except.ok.injEq] at h
    subst h
    exact ⟨state, rfl, hinv, fun t => by simp, fun hn => hn⟩
  | @cons entry table entries' tables' hsec _ ih =>
    intro all state h hinv
    rw [List.flatten_cons] at h
    obtain ⟨x, y, hx, hy, rfl⟩ := union_of_tokens_append parse table tables'.flatten all h
    obtain ⟨mid, hmid, hinv1, hmem1, hnd1⟩ := read_type_table_spec parse table x state hx hinv
    obtain ⟨state', hres, hinv2, hmem2, hnd2⟩ := ih y mid hy hinv1
    refine ⟨state', ?_, hinv2, ?_, fun hn => hnd2 (hnd1 hn)⟩
    · simp [read_type_tables, method_section_type_table slot entry _ hsec, hmid, hres, bind,
        Except.bind]
    · intro t
      rw [hmem2 t, hmem1 t, List.mem_append, or_assoc]

/-- Claim C17: for every token parser and every well-formed bytecode sequence all of
whose type signatures parse, `_get_mobile_model_contained_types` succeeds and returns
a duplicate-free list whose elements are exactly those of the union, over every
signature of the type table of every method entry at indices 1..end, of the parser's
tokens for that signature. Membership depends only on which signatures occur, so the
record of already-parsed signatures, and any repetition of a signature, leave the
returned set unchanged. -/
theorem contained_types_union (BYTECODE_INDEX_TYPE : Nat)
    (parse : String → Except String (List String)) (bytecode_ivalues : List IValue)
    (tables : List (List String))
    (hwf : well_formed_types BYTECODE_INDEX_TYPE bytecode_ivalues tables)
    (all : List String) (hparse : union_of_tokens parse tables.flatten = Except.ok all) :
    ∃ result, _get_mobile_model_contained_types BYTECODE_INDEX_TYPE parse bytecode_ivalues =
        Except.ok result ∧
      result.Nodup ∧
      (∀ t, t ∈ result ↔ t ∈ all) ∧
      (∀ t, t ∈ result ↔
        ∃ sig ∈ tables.flatten, ∃ tokens, parse sig = Except.ok tokens ∧ t ∈ tokens) := by
  obtain ⟨state', hres, -, hmem, hnd⟩ := read_type_tables_spec BYTECODE_INDEX_TYPE parse _ _
    hwf all ([], []) hparse (fun sig hs => absurd hs (List.not_mem_nil sig))
  refine ⟨state'.1, ?_, hnd List.nodup_nil, ?_, ?_⟩
  · simp only [_get_mobile_model_contained_types, hres, bind, Except.bind, pure, Except.pure]
  · intro t
    rw [hmem t]
    simp
  · intro t
    rw [hmem t, ← union_of_tokens_mem parse _ all hparse t]
    simp

/-- Claim C17 at `sample_bytecode`, whose two type tables repeat `Tensor` and
`Dict[int, Tensor]`: the result has the elements of the union over all five
signatures. -/
theorem contained_types_union_witness :
    ∃ result, _get_mobile_model_contained_types 3 sample_parse sample_bytecode =
        Except.ok result ∧
      result.Nodup ∧
      (∀ t, t ∈ result ↔ t ∈ ["Tensor", "Dict", "int", "Tensor", "Tensor", "Dict", "int",
        "Tensor", "int"]) ∧
      (∀ t, t ∈ result ↔
        ∃ sig ∈ sample_tables.flatten, ∃ tokens,
          sample_parse sig = Except.ok tokens ∧ t ∈ tokens) :=
  contained_types_union 3 sample_parse sample_bytecode sample_tables
    (List.Forall₂.cons ⟨_, _, _, _, _, rfl, rfl⟩
      (List.Forall₂.cons ⟨_, _, _, _, _, rfl, rfl⟩ List.Forall₂.nil))
    _ (by decide)

end torch.jit
